import Mathlib

/-!
# evcc `util/log.go`: logger registry, threshold policy and log capture

A shallow embedding of `src/util/log.go`.

* Go strings and byte slices are represented by their rune sequence
  (`List Char`), i.e. the development covers valid UTF-8 text; `len` is the
  UTF-8 byte length.
* Package-level variables (`loggers`, `levels`, `OutThreshold`,
  `LogThreshold`, `LogAreaPadding`, `uiChan`) are the fields of `State`, and
  every function that reads or writes them passes the state explicitly.
* Go maps are association lists with pairwise distinct keys; the order of the
  list is the order in which a `range` loop visits the entries.
* `panic` is an explicit outcome that carries the state reached so far.
* The Unicode tables of the Go library (`unicode.CaseRanges`, the
  `strconv.IsPrint` tables) are a parameter `RuneTables`; every general
  theorem holds for all tables.
-/

namespace Util

/-- Go `string` / `[]byte` holding valid UTF-8, as its sequence of runes. -/
abbrev GoString := List Char

/-- Go `len(s)`: the number of bytes of the UTF-8 encoding. -/
def len (s : GoString) : Nat := (s.map fun c => c.utf8Size).sum

/-! ## jww thresholds -/

/-- The `jww.Threshold` enumeration, in increasing order of severity. -/
inductive Threshold where
  | LevelTrace
  | LevelDebug
  | LevelInfo
  | LevelWarn
  | LevelError
  | LevelCritical
  | LevelFatal
  deriving DecidableEq, Repr

/-- Numeric value of a `jww.Threshold` (`LevelTrace` is 0). -/
def Threshold.toNat : Threshold → Nat
  | .LevelTrace => 0
  | .LevelDebug => 1
  | .LevelInfo => 2
  | .LevelWarn => 3
  | .LevelError => 4
  | .LevelCritical => 5
  | .LevelFatal => 6

/-! ## Library functions on strings -/

/-- The table-driven parts of the Go library that `log.go` reaches through
`strings.ToUpper`, `strings.ToLower` and `strconv.Quote`:
`upper r` is `unicode.To(unicode.UpperCase, r)` and `lower r` is
`unicode.To(unicode.LowerCase, r)` for runes above `unicode.MaxASCII`;
`printable r` is `strconv.IsPrint r` for runes above `0xFF`. -/
structure RuneTables where
  upper : Char → Char
  lower : Char → Char
  printable : Char → Bool

/-- Go `unicode.ToUpper`: ASCII is handled inline, other runes go through the
case table. -/
def unicodeToUpper (T : RuneTables) (r : Char) : Char :=
  if r.toNat ≤ 127 then
    if 97 ≤ r.toNat ∧ r.toNat ≤ 122 then Char.ofNat (r.toNat - 32) else r
  else T.upper r

/-- Go `unicode.ToLower`: ASCII is handled inline, other runes go through the
case table. -/
def unicodeToLower (T : RuneTables) (r : Char) : Char :=
  if r.toNat ≤ 127 then
    if 65 ≤ r.toNat ∧ r.toNat ≤ 90 then Char.ofNat (r.toNat + 32) else r
  else T.lower r

/-- A rune below `utf8.RuneSelf`. -/
def isASCII (r : Char) : Bool := decide (r.toNat < 128)

/-- Go `strings.ToUpper`: an ASCII-only string is upper-cased bytewise,
any other string is mapped rune by rune with `unicode.ToUpper`. -/
def ToUpper (T : RuneTables) (s : GoString) : GoString :=
  if s.all isASCII then
    s.map fun c => if 97 ≤ c.toNat ∧ c.toNat ≤ 122 then Char.ofNat (c.toNat - 32) else c
  else s.map (unicodeToUpper T)

/-- Go `strings.ToLower`: an ASCII-only string is lower-cased bytewise,
any other string is mapped rune by rune with `unicode.ToLower`. -/
def ToLower (T : RuneTables) (s : GoString) : GoString :=
  if s.all isASCII then
    s.map fun c => if 65 ≤ c.toNat ∧ c.toNat ≤ 90 then Char.ofNat (c.toNat + 32) else c
  else s.map (unicodeToLower T)

/-- An excerpt of the Go tables, for evaluating the definitions on concrete
inputs: `unicode.CaseRanges` has the entries `0x0131` (delta `-232` to upper
case, so dotless i becomes `I`), `0x017F` (delta `-300`, long s becomes `S`),
`0x0130` (delta `-199` to lower case, dotted capital I becomes `i`) and
`0x212A` (delta `-8383` to lower case, the Kelvin sign becomes `k`); runes
outside the excerpt are left unchanged and count as printable. -/
def excerptTables : RuneTables where
  upper := fun r =>
    if r.toNat = 0x131 then Char.ofNat (0x131 - 232)
    else if r.toNat = 0x17F then Char.ofNat (0x17F - 300)
    else r
  lower := fun r =>
    if r.toNat = 0x130 then Char.ofNat (0x130 - 199)
    else if r.toNat = 0x212A then Char.ofNat (0x212A - 8383)
    else r
  printable := fun _ => true

/-! ## Level grammar -/

deriving instance DecidableEq for Except

/-- `LogLevelToThreshold` converts a log level string to a jww threshold; the
`default` branch panics with the message `"invalid log level " + level`. -/
def LogLevelToThreshold (T : RuneTables) (level : GoString) : Except GoString Threshold :=
  let u := ToUpper T level
  if u = "FATAL".toList then .ok .LevelFatal
  else if u = "ERROR".toList then .ok .LevelError
  else if u = "WARN".toList then .ok .LevelWarn
  else if u = "INFO".toList then .ok .LevelInfo
  else if u = "DEBUG".toList then .ok .LevelDebug
  else if u = "TRACE".toList then .ok .LevelTrace
  else .error ("invalid log level ".toList ++ level)

/-- The six level names of the grammar with the threshold each one denotes. -/
def levelNames : List (GoString × Threshold) :=
  [("FATAL".toList, .LevelFatal), ("ERROR".toList, .LevelError),
   ("WARN".toList, .LevelWarn), ("INFO".toList, .LevelInfo),
   ("DEBUG".toList, .LevelDebug), ("TRACE".toList, .LevelTrace)]

/-- `s` spells `name` in some mix of upper and lower case: position by
position the rune of `s` is the (upper-case) rune of `name` or the ASCII
letter 32 code points above it. -/
def CaseVariant (s name : GoString) : Prop :=
  List.Forall₂ (fun c n => c = n ∨ c.toNat = n.toNat + 32) s name

/-! ## Go maps -/

/-- Go map lookup `v, ok := m[k]`. -/
def mapGet {V : Type} : List (GoString × V) → GoString → Option V
  | [], _ => none
  | (k', v) :: rest, k => if k' = k then some v else mapGet rest k

/-- Go map assignment `m[k] = v`: the entry of an existing key is overwritten,
a new key gets a new entry. -/
def mapSet {V : Type} : List (GoString × V) → GoString → V → List (GoString × V)
  | [], k, v => [(k, v)]
  | (k', v') :: rest, k, v =>
    if k' = k then (k, v) :: rest else (k', v') :: mapSet rest k v

/-! ## Writers -/

/-- The two destinations `NewLogger` hands to jww: `os.Stdout` and
`io.Discard`. -/
inductive Sink where
  | Stdout
  | Discard
  deriving DecidableEq, Repr

/-- `Param` is the event sent on `uiChan`. -/
structure Param where
  Key : GoString
  Val : GoString
  deriving DecidableEq, Repr

/-- The `uiWriter` struct. Its `re` field always holds the one pattern that
`captureLogger` compiles, `logLineRe` below, so only `level` is stored. -/
structure uiWriter where
  level : GoString
  deriving DecidableEq, Repr

/-- An `io.Writer` that is not an `io.MultiWriter`. -/
inductive Leaf where
  | sink (s : Sink)
  | ui (w : uiWriter)
  deriving DecidableEq, Repr

/-- An `io.Writer` as it occurs in this package: a plain writer or the
`*multiWriter` built by `io.MultiWriter`. -/
inductive Writer where
  | single (w : Leaf)
  | multi (ws : List Leaf)
  deriving DecidableEq, Repr

/-- Go `io.MultiWriter(writers...)`: arguments that are multi-writers
themselves are spliced in. -/
def MultiWriter (writers : List Writer) : Writer :=
  .multi (writers.flatMap fun w =>
    match w with
    | .multi ws => ws
    | .single l => [l])

/-- Result `(n int, err error)` of a `Write`; `none` is the `nil` error. -/
abbrev WriteResult := Nat × Option GoString

/-- Go `io.ErrShortWrite`. -/
def ErrShortWrite : GoString := "short write".toList

/-! ## The capture pattern -/

/-- One element of a pattern: a character class with repetition bounds
(`x` is `1..1`, `x+` is `1..`, `x*` is `0..`, `x{19}` is `19..19`). -/
structure Atom where
  cls : Char → Bool
  min : Nat
  max : Option Nat

/-- Greedy repetition with backtracking (leftmost-first preference): take as
many runes of the class as the bounds allow, giving runes back while the rest
of the pattern `k` fails. -/
def matchRep (cls : Char → Bool) (k : GoString → Option GoString) :
    Nat → Option Nat → GoString → Option GoString
  | min, _, [] => if min = 0 then k [] else none
  | min, max, c :: s =>
    if max ≠ some 0 ∧ cls c = true then
      match matchRep cls k (min - 1) (max.map fun m => m - 1) s with
      | some r => some r
      | none => if min = 0 then k (c :: s) else none
    else if min = 0 then k (c :: s) else none

/-- Match a sequence of atoms at the start of the input; the result is the
input left over after the preferred match. -/
def matchAtoms : List Atom → GoString → Option GoString
  | [], s => some s
  | a :: rest, s => matchRep a.cls (matchAtoms rest) a.min a.max s

/-- The class holding the single rune `c`. -/
def Atom.lit (c : Char) : Atom := ⟨fun x => decide (x = c), 1, some 1⟩

/-- The class `[a-zA-Z0-9-]`. -/
def reArea (c : Char) : Bool :=
  decide ((97 ≤ c.toNat ∧ c.toNat ≤ 122) ∨ (65 ≤ c.toNat ∧ c.toNat ≤ 90) ∨
    (48 ≤ c.toNat ∧ c.toNat ≤ 57) ∨ c.toNat = 45)

/-- The class `\s` of Go regular expressions: `[\t\n\f\r ]`. -/
def reSpace (c : Char) : Bool :=
  decide (c.toNat = 9 ∨ c.toNat = 10 ∨ c.toNat = 12 ∨ c.toNat = 13 ∨ c.toNat = 32)

/-- The class `\w` of Go regular expressions: `[0-9A-Za-z_]`. -/
def reWord (c : Char) : Bool :=
  decide ((48 ≤ c.toNat ∧ c.toNat ≤ 57) ∨ (65 ≤ c.toNat ∧ c.toNat ≤ 90) ∨
    (97 ≤ c.toNat ∧ c.toNat ≤ 122) ∨ c.toNat = 95)

/-- The class `.` (no `s` flag): every rune except the newline. -/
def reDot (c : Char) : Bool := decide (c.toNat ≠ 10)

/-- The pattern of `captureLogger` after the anchor `^`:
`\[[a-zA-Z0-9-]+\s*\] \w+ .{19} `. -/
def logLineRe : List Atom :=
  [Atom.lit '[', ⟨reArea, 1, none⟩, ⟨reSpace, 0, none⟩, Atom.lit ']', Atom.lit ' ',
   ⟨reWord, 1, none⟩, Atom.lit ' ', ⟨reDot, 19, some 19⟩, Atom.lit ' ']

/-- `w.re.ReplaceAll(p, []byte{})` for the pattern of `captureLogger`: the
pattern starts with `^`, so the only possible match begins at offset 0; it is
replaced by nothing, and an input without a match is returned unchanged. -/
def reReplaceAll (p : GoString) : GoString :=
  match matchAtoms logLineRe p with
  | some rest => rest
  | none => p

/-! ## `strings.TrimSpace`, `strings.Trim`, `strconv.Quote` -/

/-- Go `unicode.IsSpace`. -/
def IsSpace (r : Char) : Bool :=
  if r.toNat ≤ 0xFF then
    decide (r.toNat = 9 ∨ r.toNat = 10 ∨ r.toNat = 11 ∨ r.toNat = 12 ∨ r.toNat = 13 ∨
      r.toNat = 32 ∨ r.toNat = 0x85 ∨ r.toNat = 0xA0)
  else
    decide (r.toNat = 0x1680 ∨ (0x2000 ≤ r.toNat ∧ r.toNat ≤ 0x200A) ∨ r.toNat = 0x2028 ∨
      r.toNat = 0x2029 ∨ r.toNat = 0x202F ∨ r.toNat = 0x205F ∨ r.toNat = 0x3000)

/-- Remove the longest suffix whose runes all satisfy `f`. -/
def trimRightFunc (f : Char → Bool) (s : GoString) : GoString :=
  ((s.reverse).dropWhile f).reverse

/-- Go `strings.TrimSpace`: leading and trailing white space removed. -/
def TrimSpace (s : GoString) : GoString :=
  trimRightFunc IsSpace (s.dropWhile IsSpace)

/-- Go `strings.Trim(s, cutset)`: all leading and trailing runes contained in
`cutset` removed. -/
def Trim (s : GoString) (cutset : GoString) : GoString :=
  trimRightFunc (fun c => cutset.contains c) (s.dropWhile fun c => cutset.contains c)

/-- The digit table `lowerhex` of `strconv`. -/
def lowerhex (n : Nat) : Char := "0123456789abcdef".toList.getD (n % 16) '0'

/-- Go `strconv.IsPrint`. -/
def IsPrint (T : RuneTables) (r : Char) : Bool :=
  if r.toNat ≤ 0xFF then
    if 0x20 ≤ r.toNat ∧ r.toNat ≤ 0x7E then true
    else if 0xA1 ≤ r.toNat then decide (r.toNat ≠ 0xAD)
    else false
  else T.printable r

/-- The text `strconv.appendEscapedRune` appends for the rune `r` inside a
double-quoted literal. -/
def appendEscapedRune (T : RuneTables) (r : Char) : GoString :=
  if r = '"' ∨ r = '\\' then ['\\', r]
  else if IsPrint T r then [r]
  else if r.toNat = 7 then ['\\', 'a']
  else if r.toNat = 8 then ['\\', 'b']
  else if r.toNat = 12 then ['\\', 'f']
  else if r.toNat = 10 then ['\\', 'n']
  else if r.toNat = 13 then ['\\', 'r']
  else if r.toNat = 9 then ['\\', 't']
  else if r.toNat = 11 then ['\\', 'v']
  else if r.toNat < 32 ∨ r.toNat = 0x7F then
    ['\\', 'x', lowerhex (r.toNat / 16), lowerhex r.toNat]
  else if r.toNat < 0x10000 then
    ['\\', 'u', lowerhex (r.toNat / 4096), lowerhex (r.toNat / 256),
     lowerhex (r.toNat / 16), lowerhex r.toNat]
  else
    ['\\', 'U', lowerhex (r.toNat / 268435456), lowerhex (r.toNat / 16777216),
     lowerhex (r.toNat / 1048576), lowerhex (r.toNat / 65536),
     lowerhex (r.toNat / 4096), lowerhex (r.toNat / 256),
     lowerhex (r.toNat / 16), lowerhex r.toNat]

/-- Go `strconv.Quote`: a double-quoted Go string literal for `s`. -/
def Quote (T : RuneTables) (s : GoString) : GoString :=
  '"' :: (s.flatMap (appendEscapedRune T) ++ ['"'])

/-- The method `uiWriter.Write`: strips the line prefix, sends one `Param` on
`uiChan` and returns `0, nil`. The result is the list of events sent together
with the return values. -/
def uiWriter.Write (T : RuneTables) (w : uiWriter) (p : GoString) : List Param × WriteResult :=
  -- trim level and timestamp
  let s := reReplaceAll p
  ([{ Key := w.level, Val := Trim (Quote T (TrimSpace s)) ['"'] }], (0, none))

/-- The `Write` of a plain writer: `io.Discard` accepts everything, the result
of `os.Stdout` is whatever the environment `out` makes of it, a `uiWriter`
runs its method. -/
def Leaf.Write (T : RuneTables) (out : GoString → WriteResult) (w : Leaf) (p : GoString) :
    List Param × WriteResult :=
  match w with
  | .sink .Stdout => ([], out p)
  | .sink .Discard => ([], (len p, none))
  | .ui u => u.Write T p

/-- The method `(*multiWriter).Write` of package `io`: the writers are called
in order; the first error ends the call, and so does a writer that reports
fewer than `len(p)` bytes (`io.ErrShortWrite`). -/
def multiWrite (T : RuneTables) (out : GoString → WriteResult) :
    List Leaf → GoString → List Param × WriteResult
  | [], p => ([], (len p, none))
  | w :: ws, p =>
    let (ev, n, err) := w.Write T out p
    if err ≠ none then (ev, n, err)
    else if n ≠ len p then (ev, n, some ErrShortWrite)
    else
      let (ev', r) := multiWrite T out ws p
      (ev ++ ev', r)

/-- `Write` on any writer of the package. -/
def Writer.Write (T : RuneTables) (out : GoString → WriteResult) (w : Writer) (p : GoString) :
    List Param × WriteResult :=
  match w with
  | .single l => l.Write T out p
  | .multi ws => multiWrite T out ws p

/-! ## jww notepads and loggers -/

/-- The part of a `jww.Notepad` that `log.go` touches: both thresholds, both
handles, the display name, and the output writers of the `WARN`, `ERROR` and
`FATAL` loggers. -/
structure Notepad where
  stdoutThreshold : Threshold
  logThreshold : Threshold
  outHandle : Sink
  logHandle : Sink
  name : GoString
  WARN : Writer
  ERROR : Writer
  FATAL : Writer
  deriving DecidableEq, Repr

/-- The writer jww gives to the logger of severity `t` when it (re)builds the
loggers of a notepad: both handles when `t` reaches both thresholds, one
handle when it reaches one, `io.Discard` otherwise. -/
def levelWriter (outT logT : Threshold) (outHandle logHandle : Sink) (t : Threshold) : Writer :=
  if logT.toNat ≤ t.toNat ∧ outT.toNat ≤ t.toNat then
    MultiWriter [.single (.sink outHandle), .single (.sink logHandle)]
  else if logT.toNat ≤ t.toNat then .single (.sink logHandle)
  else if outT.toNat ≤ t.toNat then .single (.sink outHandle)
  else .single (.sink .Discard)

/-- The constructor `jww.NewNotepad(outThreshold, logThreshold, outHandle,
logHandle, name, flags)`. -/
def NewNotepad (outThreshold logThreshold : Threshold) (outHandle logHandle : Sink)
    (name : GoString) : Notepad :=
  { stdoutThreshold := outThreshold, logThreshold := logThreshold,
    outHandle := outHandle, logHandle := logHandle, name := name,
    WARN := levelWriter outThreshold logThreshold outHandle logHandle .LevelWarn,
    ERROR := levelWriter outThreshold logThreshold outHandle logHandle .LevelError,
    FATAL := levelWriter outThreshold logThreshold outHandle logHandle .LevelFatal }

/-- The method `(*Notepad).SetStdoutThreshold` of jww: stores the console
threshold and rebuilds the loggers of the notepad. -/
def Notepad.SetStdoutThreshold (n : Notepad) (threshold : Threshold) : Notepad :=
  { n with
    stdoutThreshold := threshold,
    WARN := levelWriter threshold n.logThreshold n.outHandle n.logHandle .LevelWarn,
    ERROR := levelWriter threshold n.logThreshold n.outHandle n.logHandle .LevelError,
    FATAL := levelWriter threshold n.logThreshold n.outHandle n.logHandle .LevelFatal }

/-- The struct `Logger` behind a `*Logger`: `addr` identifies the allocation,
so two pointers are the same instance exactly when the addresses agree. -/
structure Logger where
  addr : Nat
  Notepad : Notepad
  name : GoString
  deriving DecidableEq, Repr

/-- The package-level variables of `log.go`, and `allocated`, the number of
`Logger` structs constructed so far (the next free address). -/
structure State where
  loggers : List (GoString × Logger)
  levels : List (GoString × Threshold)
  OutThreshold : Threshold
  LogThreshold : Threshold
  LogAreaPadding : Int
  uiChan : Option Nat
  allocated : Nat
  deriving DecidableEq, Repr

/-- The values the package-level variables are initialised with. -/
def State.init : State :=
  { loggers := [], levels := [], OutThreshold := .LevelError, LogThreshold := .LevelWarn,
    LogAreaPadding := 6, uiChan := none, allocated := 0 }

/-- The padding loop of `NewLogger`:
`for len(padded) < LogAreaPadding { padded = padded + " " }`. -/
def padLoop (LogAreaPadding : Int) (padded : GoString) : GoString :=
  if (len padded : Int) < LogAreaPadding then padLoop LogAreaPadding (padded ++ [' '])
  else padded
termination_by (LogAreaPadding - len padded).toNat
decreasing_by
  have h : len (padded ++ [' ']) = len padded + 1 := by
    simp [len]
    rfl
  rw [h]
  omega

/-- `LogLevelForArea` gets the log level for the given log area. -/
def LogLevelForArea (T : RuneTables) (st : State) (area : GoString) : Threshold :=
  match mapGet st.levels (ToLower T area) with
  | some level => level
  | none => st.OutThreshold

/-- `NewLogger` creates a logger with the given log area and adds it to the
registry; the result is the new state and the returned `*Logger`. -/
def NewLogger (T : RuneTables) (st : State) (area : GoString) : State × Logger :=
  match mapGet st.loggers area with
  | some logger => (st, logger)
  | none =>
    let padded := padLoop st.LogAreaPadding area
    let level := LogLevelForArea T st area
    let notepad := NewNotepad level level .Stdout .Discard padded
    let logger : Logger := { addr := st.allocated, Notepad := notepad, name := area }
    ({ st with loggers := mapSet st.loggers area logger, allocated := st.allocated + 1 }, logger)

/-- `Loggers` invokes the callback for each configured logger. The callback
may change the logger it is handed (it receives a pointer) and its own
accumulator `acc`. -/
def Loggers {σ : Type} (cb : GoString → Logger → σ → Logger × σ) :
    List (GoString × Logger) → σ → List (GoString × Logger) × σ
  | [], acc => ([], acc)
  | (name, logger) :: rest, acc =>
    let r := cb name logger acc
    let rs := Loggers cb rest r.2
    ((name, r.1) :: rs.1, rs.2)

/-- How a call ends: it returns, or it panics with a message; either way the
package-level variables are left in the state `st`. -/
inductive Outcome where
  | returned (st : State)
  | panicked (msg : GoString) (st : State)
  deriving DecidableEq, Repr

/-- The state a call leaves behind. -/
def Outcome.state : Outcome → State
  | .returned st => st
  | .panicked _ st => st

/-- Whether the call panicked. -/
def Outcome.isPanic : Outcome → Bool
  | .returned _ => false
  | .panicked _ _ => true

/-- The loop `for area, level := range areaLevels` of `LogLevel`, visiting the
entries in list order; a panic leaves the table as it is at that moment. -/
def areaLevelLoop (T : RuneTables) :
    List (GoString × Threshold) → List (GoString × GoString) →
      List (GoString × Threshold) × Option GoString
  | levels, [] => (levels, none)
  | levels, (area, level) :: rest =>
    let area := ToLower T area
    match LogLevelToThreshold T level with
    | .error msg => (levels, some msg)
    | .ok t => areaLevelLoop T (mapSet levels area t) rest

/-- `LogLevel` sets the log level for all loggers. -/
def LogLevel (T : RuneTables) (st : State) (defaultLevel : GoString)
    (areaLevels : List (GoString × GoString)) : Outcome :=
  -- default level
  match LogLevelToThreshold T defaultLevel with
  | .error msg => .panicked msg st
  | .ok t =>
    let st1 := { st with OutThreshold := t, LogThreshold := t }
    -- area levels
    match areaLevelLoop T st1.levels areaLevels with
    | (levels, some msg) => .panicked msg { st1 with levels := levels }
    | (levels, none) =>
      let st2 := { st1 with levels := levels }
      let r := Loggers (fun name logger (_ : Unit) =>
        ({ logger with Notepad := logger.Notepad.SetStdoutThreshold (LogLevelForArea T st2 name) },
          ())) st2.loggers ()
      .returned { st2 with loggers := r.1 }

/-- `captureLogger(level, l)`: the argument is the current output
`l.Writer()` of the `*log.Logger`, the result is the output installed by
`l.SetOutput`. The pattern is a constant that compiles, so the `panic(err)`
branch is never taken. -/
def captureLogger (level : GoString) (l : Writer) : Writer :=
  let ui : uiWriter := { level := level }
  MultiWriter [l, .single (.ui ui)]

/-- `CaptureLogs` appends a `uiWriter` to the relevant log levels of every
registered logger. -/
def CaptureLogs (st : State) (c : Option Nat) : State :=
  { st with
    uiChan := c,
    loggers := st.loggers.map fun e =>
      (e.1, { e.2 with Notepad :=
        { e.2.Notepad with
          WARN := captureLogger "warn".toList e.2.Notepad.WARN,
          ERROR := captureLogger "error".toList e.2.Notepad.ERROR,
          FATAL := captureLogger "error".toList e.2.Notepad.FATAL } }) }

/-! ## Goroutines and `loggersMux` -/

/-- The package-level variables as goroutines share them, with the mutex
`loggersMux` (`true` while some goroutine holds it). -/
structure Shared where
  st : State
  loggersMux : Bool
  deriving DecidableEq, Repr

/-- The local variables of a `NewLogger` call that has executed
`level := LogLevelForArea(area)` and not yet the construction of the
notepad. -/
structure Pending where
  area : GoString
  padded : GoString
  level : Threshold
  deriving DecidableEq, Repr

/-- The first part of `NewLogger`, from `loggersMux.Lock()` to
`level := LogLevelForArea(area)`. The call waits (`none`) while the mutex is
held. For a registered area it returns that logger, the deferred `Unlock`
releasing the mutex; otherwise it goes on holding the mutex, with its local
variables. -/
def NewLoggerEnter (T : RuneTables) (sh : Shared) (area : GoString) :
    Option (Shared × (Logger ⊕ Pending)) :=
  if sh.loggersMux then none
  else
    match mapGet sh.st.loggers area with
    | some logger => some ({ sh with loggersMux := false }, .inl logger)
    | none =>
      some ({ sh with loggersMux := true },
        .inr { area := area, padded := padLoop sh.st.LogAreaPadding area,
               level := LogLevelForArea T sh.st area })

/-- The second part of `NewLogger`, from `jww.NewNotepad` to the `return`, run
by the goroutine that holds the mutex; the deferred `Unlock` releases it. -/
def NewLoggerLeave (sh : Shared) (pd : Pending) : Shared × Logger :=
  let notepad := NewNotepad pd.level pd.level .Stdout .Discard pd.padded
  let logger : Logger := { addr := sh.st.allocated, Notepad := notepad, name := pd.area }
  ({ st := { sh.st with loggers := mapSet sh.st.loggers pd.area logger,
                        allocated := sh.st.allocated + 1 },
     loggersMux := false }, logger)

/-- A `LogLevel` call made by a goroutine: the function body has no
`loggersMux.Lock()`, and neither has `Loggers`, so the call runs whether or
not the mutex is held and leaves the mutex as it is. -/
def LogLevelShared (T : RuneTables) (sh : Shared) (defaultLevel : GoString)
    (areaLevels : List (GoString × GoString)) : Shared :=
  { sh with st := (LogLevel T sh.st defaultLevel areaLevels).state }

/-- `LogLevel` as the specification words it, taking the same lock as
`NewLogger` for the whole call: it waits (`none`) while the mutex is held. -/
def LogLevelLockedSpec (T : RuneTables) (sh : Shared) (defaultLevel : GoString)
    (areaLevels : List (GoString × GoString)) : Option Shared :=
  if sh.loggersMux then none
  else some { sh with st := (LogLevel T sh.st defaultLevel areaLevels).state }

/-- One schedule of two goroutines from the shared state `sh`: the first
enters `NewLogger(area)`, the second then runs
`LogLevel(defaultLevel, areaLevels)`, the first then finishes `NewLogger`. The
result is the final shared state and the logger `NewLogger` returns; `none`
when the first goroutine has to wait or finds the area registered. -/
def interleaved (T : RuneTables) (sh : Shared) (area defaultLevel : GoString)
    (areaLevels : List (GoString × GoString)) : Option (Shared × Logger) :=
  match NewLoggerEnter T sh area with
  | some (sh1, .inr pd) => some (NewLoggerLeave (LogLevelShared T sh1 defaultLevel areaLevels) pd)
  | _ => none

/-- The same schedule with `LogLevel` taking the lock as the specification
words it: `none` when a goroutine has to wait. -/
def interleavedLockedSpec (T : RuneTables) (sh : Shared) (area defaultLevel : GoString)
    (areaLevels : List (GoString × GoString)) : Option (Shared × Logger) :=
  match NewLoggerEnter T sh area with
  | some (sh1, .inr pd) =>
    match LogLevelLockedSpec T sh1 defaultLevel areaLevels with
    | some sh2 => some (NewLoggerLeave sh2 pd)
    | none => none
  | _ => none

/-! ## Vocabulary of the statements -/

/-- The runes `A` to `Z`. -/
def isUpperLetter (c : Char) : Prop := 65 ≤ c.toNat ∧ c.toNat ≤ 90

/-- `s` is one of the six names written in some mix of upper- and lower-case
letters. -/
def IsLevelSpelling (s : GoString) : Prop := ∃ e ∈ levelNames, CaseVariant s e.1

/-- The upper-casing `strings.ToUpper s` is one of the six names. -/
def UpperIsLevel (T : RuneTables) (s : GoString) : Prop :=
  ToUpper T s ∈ levelNames.map Prod.fst

/-- The string of the four runes U+0131 (dotless i), `n`, `f`, `o`. -/
def dotlessInfo : GoString := [Char.ofNat 0x131, 'n', 'f', 'o']

/-- Two runes that are equal or are the upper- and lower-case form of the same
ASCII letter. -/
def SameLetter (c d : Char) : Prop :=
  c = d ∨ (isUpperLetter d ∧ c.toNat = d.toNat + 32) ∨ (isUpperLetter c ∧ d.toNat = c.toNat + 32)

/-- `a` is a casing of `b`: the two strings differ at most in the case of
ASCII letters. -/
def IsCasingOf (a b : GoString) : Prop := List.Forall₂ SameLetter a b

/-- The map literal with the keys `foo` and `FOO`, in one iteration order. -/
def fooLevels : List (GoString × GoString) :=
  [("foo".toList, "DEBUG".toList), ("FOO".toList, "ERROR".toList)]

/-- The `Logger` that `NewLogger` constructs for an area that is not yet
registered. -/
def freshLogger (T : RuneTables) (st : State) (area : GoString) : Logger :=
  { addr := st.allocated,
    Notepad := NewNotepad (LogLevelForArea T st area) (LogLevelForArea T st area)
      .Stdout .Discard (padLoop st.LogAreaPadding area),
    name := area }

/-- The states the package can be in: the initial values of the variables,
followed by any sequence of `NewLogger` calls, `LogLevel` calls that return,
and `CaptureLogs` calls. -/
inductive Reachable (T : RuneTables) : State → Prop where
  | init : Reachable T State.init
  | newLogger {st : State} (area : GoString) :
      Reachable T st → Reachable T (NewLogger T st area).1
  | logLevel {st st' : State} (defaultLevel : GoString)
      (areaLevels : List (GoString × GoString)) :
      Reachable T st → LogLevel T st defaultLevel areaLevels = .returned st' → Reachable T st'
  | captureLogs {st : State} (c : Option Nat) :
      Reachable T st → Reachable T (CaptureLogs st c)

/-- The registry holds one logger per area: the keys are pairwise distinct,
every logger is stored under its own name, was allocated before, no
allocation is stored under two keys, and as many loggers were constructed as
there are areas in the registry. -/
def RegistryInv (st : State) : Prop :=
  (st.loggers.map Prod.fst).Nodup ∧
    (∀ e ∈ st.loggers, e.2.name = e.1 ∧ e.2.addr < st.allocated) ∧
    (st.loggers.map fun e => e.2.addr).Nodup ∧
    st.allocated = st.loggers.length

/-- Every registered logger's console threshold is what `LogLevelForArea`
resolves for its area in the current state. -/
def ThresholdInv (T : RuneTables) (st : State) : Prop :=
  ∀ e ∈ st.loggers, e.2.Notepad.stdoutThreshold = LogLevelForArea T st e.2.name

/-- The result of writing `p` to the fan-out writer that `captureLogger`
builds over `orig`, computed from the result `r` of writing `p` to `orig`: a
failure of `orig` ends the write; otherwise the `uiWriter` runs and its `0`
bytes are a short write unless `p` is empty. -/
def fanOutResult (T : RuneTables) (level : GoString) (p : GoString)
    (r : List Param × WriteResult) : List Param × WriteResult :=
  if r.2.2 ≠ none then r
  else if r.2.1 ≠ len p then (r.1, r.2.1, some ErrShortWrite)
  else if len p = 0 then (r.1 ++ (uiWriter.Write T ⟨level⟩ p).1, (0, none))
  else (r.1 ++ (uiWriter.Write T ⟨level⟩ p).1, (0, some ErrShortWrite))

/-- An `os.Stdout` that accepts every write in full. -/
def stdoutAccepts (p : GoString) : WriteResult := (len p, none)

/-- An `os.Stdout` whose every write fails with `EPIPE` after 0 bytes. -/
def stdoutBroken (_ : GoString) : WriteResult := (0, some "EPIPE".toList)

/-- The line a jww logger writes to its sink: `"[" + padded + "] "`, the
level word and a blank (the notepad's line header), the 19-character
`yyyy/mm/dd hh:mm:ss` timestamp and a blank, the message body, a newline. -/
def renderLine (padded level timestamp body : GoString) : GoString :=
  '[' :: (padded ++ (']' :: ' ' :: (level ++ (' ' :: (timestamp ++ (' ' :: (body ++ ['\n'])))))))

/-- The level words of the three captured sinks. -/
def capturedLevels : List GoString := ["WARN".toList, "ERROR".toList, "FATAL".toList]

/-- What the claim about the outer quote pair describes: the string `q` with
exactly its first and its last character removed. -/
def stripOuterPair (q : GoString) : GoString := q.tail.dropLast

/-- A rendered ERROR line of the logger `foo` whose message body is
`say "hi"`, ending in a double quote. -/
def quotedLine : GoString :=
  renderLine "foo   ".toList "ERROR".toList "2020/01/01 00:00:00".toList "say \"hi\"".toList

/-- The plain writers an `io.Writer` of the package consists of. -/
def Writer.leaves : Writer → List Leaf
  | .single l => [l]
  | .multi ws => ws

/-- Every `uiWriter` installed in a sink of a registered logger carries the
label of that sink: `warn` in the WARN sink, `error` in the ERROR and FATAL
sinks. -/
def LabelInv (st : State) : Prop :=
  ∀ e ∈ st.loggers,
    (∀ u, Leaf.ui u ∈ e.2.Notepad.WARN.leaves → u.level = "warn".toList) ∧
    (∀ u, Leaf.ui u ∈ e.2.Notepad.ERROR.leaves → u.level = "error".toList) ∧
    (∀ u, Leaf.ui u ∈ e.2.Notepad.FATAL.leaves → u.level = "error".toList)

/-- The state after `NewLogger("foo")` in the initial state. -/
def fooState : State := (NewLogger excerptTables State.init "foo".toList).1

/-- The state after `NewLogger("foo")` and then `CaptureLogs`. -/
def fooCaptured : State := CaptureLogs fooState (some 0)

/-- A sequence of `NewLogger` calls, one for each area of the list in order;
the result is the final state and the `*Logger` each call returned. -/
def newLoggers (T : RuneTables) : State → List GoString → State × List Logger
  | st, [] => (st, [])
  | st, area :: rest =>
    let r := NewLogger T st area
    let rs := newLoggers T r.1 rest
    (rs.1, r.2 :: rs.2)

/-- A callback for `Loggers` that leaves the logger alone and records the name
and the logger it was called with. -/
def recordVisit (name : GoString) (logger : Logger) (acc : List (GoString × Logger)) :
    Logger × List (GoString × Logger) :=
  (logger, acc ++ [(name, logger)])

/-- The calls `Loggers` makes to its callback after the `NewLogger` calls for
`areas` from the initial state, in the order made. -/
def visitedAfter (T : RuneTables) (areas : List GoString) : List (GoString × Logger) :=
  (Loggers recordVisit (newLoggers T State.init areas).1.loggers []).2

/-- The case table lower-cases in one step: the lower-case form of a rune is
its own lower-case form, as it is for the tables of the Go library. -/
def LowerIdempotent (T : RuneTables) : Prop :=
  ∀ r : Char, unicodeToLower T (unicodeToLower T r) = unicodeToLower T r

/-- The states the package can be in when a `LogLevel` call that panics counts
as a step too (the caller recovers): the initial values, followed by any
sequence of `NewLogger`, `LogLevel` and `CaptureLogs` calls. -/
inductive ReachableAny (T : RuneTables) : State → Prop where
  | init : ReachableAny T State.init
  | newLogger {st : State} (area : GoString) :
      ReachableAny T st → ReachableAny T (NewLogger T st area).1
  | logLevel {st : State} (defaultLevel : GoString)
      (areaLevels : List (GoString × GoString)) :
      ReachableAny T st → ReachableAny T (LogLevel T st defaultLevel areaLevels).state
  | captureLogs {st : State} (c : Option Nat) :
      ReachableAny T st → ReachableAny T (CaptureLogs st c)

/-- The state after `LogLevel("INFO", {"Foo": "DEBUG"})` in the initial
state. -/
def fooOverride : State :=
  (LogLevel excerptTables State.init "INFO".toList [("Foo".toList, "DEBUG".toList)]).state

/-- `Steps T st0 st`: the state `st` is reached from `st0` by some sequence of
`NewLogger`, `LogLevel` (returning or panicking) and `CaptureLogs` calls. -/
inductive Steps (T : RuneTables) : State → State → Prop where
  | refl (st0 : State) : Steps T st0 st0
  | newLogger {st0 st : State} (area : GoString) :
      Steps T st0 st → Steps T st0 (NewLogger T st area).1
  | logLevel {st0 st : State} (defaultLevel : GoString)
      (areaLevels : List (GoString × GoString)) :
      Steps T st0 st → Steps T st0 (LogLevel T st defaultLevel areaLevels).state
  | captureLogs {st0 st : State} (c : Option Nat) :
      Steps T st0 st → Steps T st0 (CaptureLogs st c)

/-- The logger `l` after `CaptureLogs` has wrapped its three sinks. -/
def wrapLogger (l : Logger) : Logger :=
  { l with Notepad :=
    { l.Notepad with
      WARN := captureLogger "warn".toList l.Notepad.WARN,
      ERROR := captureLogger "error".toList l.Notepad.ERROR,
      FATAL := captureLogger "error".toList l.Notepad.FATAL } }

/-- What `LogLevel` must leave alone in a registry entry: the area it is
stored under, the instance, its name, its file threshold and its display
name. -/
def entryFrame (e : GoString × Logger) : GoString × Nat × GoString × Threshold × GoString :=
  (e.1, e.2.addr, e.2.name, e.2.Notepad.logThreshold, e.2.Notepad.name)

/-- The state after `LogLevel("ERROR", {"foo": "DEBUG"})` in the initial
state. -/
def fooDebug : State :=
  (LogLevel excerptTables State.init "ERROR".toList [("foo".toList, "DEBUG".toList)]).state

/-- A rendered ERROR line of the logger `foo` with the message `boom`. -/
def boomLine : GoString :=
  renderLine "foo   ".toList "ERROR".toList "2020/01/01 00:00:00".toList "boom".toList

/-- Two strings that differ only in letter case as the case table has it:
position by position the runes are equal or one is the upper-case form
(`unicode.ToUpper`) of the other. -/
def DifferOnlyInCase (T : RuneTables) (a b : GoString) : Prop :=
  List.Forall₂ (fun c d => c = d ∨ unicodeToUpper T c = d ∨ unicodeToUpper T d = c) a b

/-- The area that consists of the one rune U+017F, the long s. -/
def longS : GoString := [Char.ofNat 0x17F]

/-- The state after `LogLevel("ERROR", {"S": "DEBUG"})` in the initial
state. -/
def sOverride : State :=
  (LogLevel excerptTables State.init "ERROR".toList [("S".toList, "DEBUG".toList)]).state

/-- The state after `LogLevel("ERROR", {a: "DEBUG"})` in the initial state. -/
def overrideOne (T : RuneTables) (a : GoString) : State :=
  (LogLevel T State.init "ERROR".toList [(a, "DEBUG".toList)]).state

/-- The output writers of the `WARN`, `ERROR` and `FATAL` loggers of a
registry entry. -/
def entrySinks (e : GoString × Logger) : Writer × Writer × Writer :=
  (e.2.Notepad.WARN, e.2.Notepad.ERROR, e.2.Notepad.FATAL)

/-- The three writers jww builds for a notepad with the console threshold `t`
and the notepad's own file threshold and handles. -/
def rebuiltSinks (t : Threshold) (n : Notepad) : Writer × Writer × Writer :=
  (levelWriter t n.logThreshold n.outHandle n.logHandle .LevelWarn,
   levelWriter t n.logThreshold n.outHandle n.logHandle .LevelError,
   levelWriter t n.logThreshold n.outHandle n.logHandle .LevelFatal)

/-- The state after `NewLogger("foo")`, `CaptureLogs` and then
`LogLevel("ERROR", {})`. -/
def fooRecaptured : State := (LogLevel excerptTables fooCaptured "ERROR".toList []).state

/-! ## Theorems: the level grammar -/

theorem caseVariant_rune {c n : Char} (hn : isUpperLetter n)
    (h : c = n ∨ c.toNat = n.toNat + 32) :
    isASCII c = true ∧
      (if 97 ≤ c.toNat ∧ c.toNat ≤ 122 then Char.ofNat (c.toNat - 32) else c) = n := by
  unfold isUpperLetter at hn
  rcases h with h | h
  · subst h
    refine ⟨by simp [isASCII]; omega, ?_⟩
    rw [if_neg (by omega)]
  · refine ⟨by simp [isASCII]; omega, ?_⟩
    rw [if_pos (by omega), h, Nat.add_sub_cancel, Char.ofNat_toNat]

theorem ToUpper_caseVariant (T : RuneTables) {s name : GoString}
    (hname : ∀ n ∈ name, isUpperLetter n) (h : CaseVariant s name) :
    ToUpper T s = name := by
  have key : s.all isASCII = true ∧
      s.map (fun c => if 97 ≤ c.toNat ∧ c.toNat ≤ 122 then Char.ofNat (c.toNat - 32) else c)
        = name := by
    unfold CaseVariant at h
    induction h with
    | nil => simp
    | @cons c n s' name' hcn _ ih =>
      have hr := caseVariant_rune (hname n (by simp)) hcn
      have ih' := ih (fun m hm => hname m (by simp [hm]))
      simp only [List.all_cons, List.map_cons, hr.1, hr.2, ih'.1, ih'.2, Bool.and_self]
      simp
  unfold ToUpper
  rw [if_pos key.1, key.2]

theorem levelNames_upper : ∀ e ∈ levelNames, ∀ n ∈ e.1, isUpperLetter n := by
  unfold isUpperLetter
  decide

theorem LogLevelToThreshold_of_ToUpper (T : RuneTables) :
    ∀ e ∈ levelNames, ∀ s, ToUpper T s = e.1 → LogLevelToThreshold T s = .ok e.2 := by
  intro e he s hs
  simp only [levelNames, List.mem_cons, List.mem_singleton, List.not_mem_nil, or_false] at he
  rcases he with rfl | rfl | rfl | rfl | rfl | rfl <;>
    · simp only [LogLevelToThreshold, hs]
      rfl

/-- C1: for each of the six names FATAL, ERROR, WARN, INFO, DEBUG, TRACE and
every upper/lower-case spelling `s` of that name, `LogLevelToThreshold s`
returns (it does not panic) and yields the threshold of that name. -/
theorem LogLevelToThreshold_caseVariant (T : RuneTables) (name : GoString) (t : Threshold)
    (s : GoString) (hname : (name, t) ∈ levelNames) (hs : CaseVariant s name) :
    LogLevelToThreshold T s = .ok t :=
  LogLevelToThreshold_of_ToUpper T (name, t) hname s
    (ToUpper_caseVariant T (levelNames_upper (name, t) hname) hs)

theorem LogLevelToThreshold_caseVariant_witness :
    ("WARN".toList, Threshold.LevelWarn) ∈ levelNames ∧
      CaseVariant "wArN".toList "WARN".toList ∧
      LogLevelToThreshold excerptTables "wArN".toList = .ok .LevelWarn :=
  ⟨by decide, by unfold CaseVariant; decide,
    LogLevelToThreshold_caseVariant excerptTables "WARN".toList .LevelWarn "wArN".toList
      (by decide) (by unfold CaseVariant; decide)⟩

theorem toNat_ofNat_small (k : Nat) (h : k < 55296) : (Char.ofNat k).toNat = k := by
  have hv : k.isValidChar := Or.inl h
  simp only [Char.ofNat, hv, Char.toNat, Char.ofNatAux, dite_true]
  show (BitVec.ofNatLt k _).toNat = k
  simp

theorem ToUpper_eq_map (T : RuneTables) (s : GoString) :
    ToUpper T s = s.map (unicodeToUpper T) := by
  unfold ToUpper
  split
  · rename_i h
    apply List.map_congr_left
    intro c hc
    have hc' : c.toNat < 128 := by
      have := List.all_eq_true.mp h c hc
      simpa [isASCII] using this
    unfold unicodeToUpper
    rw [if_pos (show c.toNat ≤ 127 by omega)]
  · rfl

theorem upper_rune_inv {c n : Char}
    (h : (if 97 ≤ c.toNat ∧ c.toNat ≤ 122 then Char.ofNat (c.toNat - 32) else c) = n) :
    c = n ∨ c.toNat = n.toNat + 32 := by
  by_cases hc : 97 ≤ c.toNat ∧ c.toNat ≤ 122
  · rw [if_pos hc] at h
    right
    have := congrArg Char.toNat h
    rw [toNat_ofNat_small _ (by omega)] at this
    omega
  · rw [if_neg hc] at h
    exact Or.inl h

theorem caseVariant_of_map : ∀ (s name : GoString), (∀ n ∈ name, isUpperLetter n) →
    s.map (fun c => if 97 ≤ c.toNat ∧ c.toNat ≤ 122 then Char.ofNat (c.toNat - 32) else c)
      = name → CaseVariant s name
  | [], name, _, h => by
    simp only [List.map_nil] at h
    subst h
    exact List.Forall₂.nil
  | c :: s, [], _, h => by simp at h
  | c :: s, n :: name, hname, h => by
    simp only [List.map_cons, List.cons.injEq] at h
    exact List.Forall₂.cons (upper_rune_inv h.1)
      (caseVariant_of_map s name (fun m hm => hname m (by simp [hm])) h.2)

theorem upperIsLevel_iff_spelling (T : RuneTables) (s : GoString)
    (hs : s.all isASCII = true) : UpperIsLevel T s ↔ IsLevelSpelling s := by
  unfold UpperIsLevel IsLevelSpelling
  constructor
  · intro h
    obtain ⟨e, he, hes⟩ := List.mem_map.mp h
    refine ⟨e, he, caseVariant_of_map s e.1 (levelNames_upper e he) ?_⟩
    rw [hes]
    unfold ToUpper
    rw [if_pos hs]
  · rintro ⟨e, he, hv⟩
    exact List.mem_map.mpr ⟨e, he, (ToUpper_caseVariant T (levelNames_upper e he) hv).symm⟩

theorem LogLevelToThreshold_error (T : RuneTables) (s : GoString) (h : ¬ UpperIsLevel T s) :
    LogLevelToThreshold T s = .error ("invalid log level ".toList ++ s) := by
  simp only [UpperIsLevel, levelNames, List.map_cons, List.map_nil, List.mem_cons,
    List.mem_singleton, List.not_mem_nil, or_false, not_or] at h
  obtain ⟨h1, h2, h3, h4, h5, h6⟩ := h
  simp only [LogLevelToThreshold]
  rw [if_neg h1, if_neg h2, if_neg h3, if_neg h4, if_neg h5, if_neg h6]

theorem LogLevelToThreshold_ok (T : RuneTables) (s : GoString) (h : UpperIsLevel T s) :
    ∃ t, LogLevelToThreshold T s = .ok t := by
  obtain ⟨e, he, hes⟩ := List.mem_map.mp h
  exact ⟨e.2, LogLevelToThreshold_of_ToUpper T e he s hes.symm⟩

theorem areaLevelLoop_panics_iff (T : RuneTables) :
    ∀ (areaLevels : List (GoString × GoString)) (levels : List (GoString × Threshold)),
      (areaLevelLoop T levels areaLevels).2 ≠ none ↔ ∃ p ∈ areaLevels, ¬ UpperIsLevel T p.2
  | [], levels => by simp [areaLevelLoop]
  | (area, level) :: rest, levels => by
    by_cases hv : UpperIsLevel T level
    · obtain ⟨t, ht⟩ := LogLevelToThreshold_ok T level hv
      simp only [areaLevelLoop, ht]
      rw [areaLevelLoop_panics_iff T rest]
      simp [hv]
    · simp only [areaLevelLoop, LogLevelToThreshold_error T level hv]
      simp [hv]

theorem LogLevel_isPanic_iff (T : RuneTables) (st : State) (defaultLevel : GoString)
    (areaLevels : List (GoString × GoString)) :
    (LogLevel T st defaultLevel areaLevels).isPanic = true ↔
      (¬ UpperIsLevel T defaultLevel ∨ ∃ p ∈ areaLevels, ¬ UpperIsLevel T p.2) := by
  by_cases hd : UpperIsLevel T defaultLevel
  · obtain ⟨t, ht⟩ := LogLevelToThreshold_ok T defaultLevel hd
    have hl := areaLevelLoop_panics_iff T areaLevels st.levels
    simp only [LogLevel, ht]
    cases hloop : areaLevelLoop T st.levels areaLevels with
    | mk levels msg =>
      rw [hloop] at hl
      cases msg with
      | none =>
        have : ¬ ∃ p ∈ areaLevels, ¬ UpperIsLevel T p.2 := fun hex => (hl.mpr hex) rfl
        simp [Outcome.isPanic, hd, this]
      | some m =>
        have : ∃ p ∈ areaLevels, ¬ UpperIsLevel T p.2 := hl.mp (by simp)
        simp [Outcome.isPanic, this]
  · simp [LogLevel, LogLevelToThreshold_error T defaultLevel hd, Outcome.isPanic, hd]

/-- C2, as the code has it: `LogLevel(defaultLevel, areaLevels)` panics if and
only if the upper-casing (`strings.ToUpper`) of `defaultLevel` or of some value
of `areaLevels` is not one of the six names. For a string of ASCII characters
that is the same as not being one of the names in some mix of upper- and
lower-case letters, and `LogLevelToThreshold` panics on every string whose
upper-casing is not a name: the empty string, `WARNING`, ` info`, and any
string containing a rune whose upper-case form is not a letter of the names. -/
theorem LogLevel_panics_iff_upper_not_level (T : RuneTables) (st : State)
    (defaultLevel : GoString) (areaLevels : List (GoString × GoString)) :
    ((LogLevel T st defaultLevel areaLevels).isPanic = true ↔
      (¬ UpperIsLevel T defaultLevel ∨ ∃ p ∈ areaLevels, ¬ UpperIsLevel T p.2)) ∧
    (∀ s : GoString, s.all isASCII = true → (UpperIsLevel T s ↔ IsLevelSpelling s)) ∧
    (∀ s : GoString, ¬ UpperIsLevel T s →
      LogLevelToThreshold T s = .error ("invalid log level ".toList ++ s)) ∧
    (∀ s : GoString, UpperIsLevel T s → ∃ t, LogLevelToThreshold T s = .ok t) ∧
    ¬ UpperIsLevel T [] ∧ ¬ UpperIsLevel T "WARNING".toList ∧ ¬ UpperIsLevel T " info".toList ∧
    (∀ (s : GoString) (c : Char), c ∈ s →
      (∀ e ∈ levelNames, unicodeToUpper T c ∉ e.1) → ¬ UpperIsLevel T s) := by
  refine ⟨LogLevel_isPanic_iff T st defaultLevel areaLevels,
    upperIsLevel_iff_spelling T, LogLevelToThreshold_error T, LogLevelToThreshold_ok T,
    ?_, ?_, ?_, ?_⟩
  · rw [upperIsLevel_iff_spelling T _ (by decide)]
    unfold IsLevelSpelling CaseVariant
    decide
  · rw [upperIsLevel_iff_spelling T _ (by decide)]
    unfold IsLevelSpelling CaseVariant
    decide
  · rw [upperIsLevel_iff_spelling T _ (by decide)]
    unfold IsLevelSpelling CaseVariant
    decide
  · intro s c hc hnot h
    obtain ⟨e, he, hes⟩ := List.mem_map.mp h
    apply hnot e he
    rw [hes, ToUpper_eq_map]
    exact List.mem_map.mpr ⟨c, hc, rfl⟩

/-- C2 as stated fails: the level `ınfo` (dotless i, then `nfo`) is not one of
the six names in any mix of upper- and lower-case letters, and its first rune
is not a letter of any name, yet `LogLevelToThreshold` returns `LevelInfo` for
it and `LogLevel` with that default level does not panic. -/
theorem LogLevel_dotless_i_no_panic :
    ¬ ((LogLevel excerptTables State.init dotlessInfo []).isPanic = true ↔
        (¬ IsLevelSpelling dotlessInfo ∨
          ∃ p ∈ ([] : List (GoString × GoString)), ¬ IsLevelSpelling p.2)) ∧
      LogLevelToThreshold excerptTables dotlessInfo = .ok .LevelInfo ∧
      (∀ e ∈ levelNames, Char.ofNat 0x131 ∉ e.1) := by
  refine ⟨?_, by decide, by decide⟩
  have h1 : (LogLevel excerptTables State.init dotlessInfo []).isPanic = false := by decide
  have h2 : ¬ IsLevelSpelling dotlessInfo := by
    unfold IsLevelSpelling CaseVariant
    decide
  intro h
  rw [h1] at h
  exact absurd (h.mpr (Or.inl h2)) (by decide)

/-! ## Theorems: threshold resolution -/

theorem mapGet_mapSet_same {V : Type} (k : GoString) (v : V) :
    ∀ m : List (GoString × V), mapGet (mapSet m k v) k = some v
  | [] => by simp [mapSet, mapGet]
  | (k', v') :: rest => by
    by_cases h : k' = k
    · simp [mapSet, mapGet, h]
    · simp [mapSet, mapGet, h, mapGet_mapSet_same k v rest]

theorem mapGet_mapSet_other {V : Type} (k k2 : GoString) (v : V) (hk : k2 ≠ k) :
    ∀ m : List (GoString × V), mapGet (mapSet m k v) k2 = mapGet m k2
  | [] => by
    simp only [mapSet, mapGet]
    rw [if_neg (Ne.symm hk)]
  | (k', v') :: rest => by
    by_cases h : k' = k
    · subst h
      simp only [mapSet, if_true, mapGet]
      rw [if_neg (Ne.symm hk), if_neg (Ne.symm hk)]
    · simp only [mapSet, if_neg h, mapGet, mapGet_mapSet_other k k2 v hk rest]

theorem ToLower_eq_map (T : RuneTables) (s : GoString) :
    ToLower T s = s.map (unicodeToLower T) := by
  unfold ToLower
  split
  · rename_i h
    apply List.map_congr_left
    intro c hc
    have hc' : c.toNat < 128 := by
      have := List.all_eq_true.mp h c hc
      simpa [isASCII] using this
    unfold unicodeToLower
    rw [if_pos (show c.toNat ≤ 127 by omega)]
  · rfl

theorem unicodeToLower_sameLetter (T : RuneTables) {c d : Char} (h : SameLetter c d) :
    unicodeToLower T c = unicodeToLower T d := by
  have key : ∀ x y : Char, isUpperLetter y → x.toNat = y.toNat + 32 →
      unicodeToLower T x = unicodeToLower T y := by
    intro x y hy hxy
    unfold isUpperLetter at hy
    unfold unicodeToLower
    rw [if_pos (show x.toNat ≤ 127 by omega), if_neg (by omega),
      if_pos (show y.toNat ≤ 127 by omega), if_pos hy, ← hxy, Char.ofNat_toNat]
  rcases h with h | ⟨hd, h⟩ | ⟨hc, h⟩
  · rw [h]
  · exact key c d hd h
  · exact (key d c hc h).symm

theorem ToLower_casing (T : RuneTables) {a b : GoString} (h : IsCasingOf a b) :
    ToLower T a = ToLower T b := by
  rw [ToLower_eq_map, ToLower_eq_map]
  unfold IsCasingOf at h
  induction h with
  | nil => rfl
  | @cons c d a' b' hcd _ ih =>
    simp only [List.map_cons, unicodeToLower_sameLetter T hcd, ih]

theorem areaLevelLoop_frame (T : RuneTables) (k : GoString) :
    ∀ (areaLevels : List (GoString × GoString)) (levels levels' : List (GoString × Threshold)),
      areaLevelLoop T levels areaLevels = (levels', none) →
      (∀ q ∈ areaLevels, ToLower T q.1 ≠ k) → mapGet levels' k = mapGet levels k
  | [], levels, levels', h, _ => by
    simp only [areaLevelLoop, Prod.mk.injEq, and_true] at h
    rw [h]
  | (area, level) :: rest, levels, levels', h, hk => by
    simp only [areaLevelLoop] at h
    cases hl : LogLevelToThreshold T level with
    | error msg => simp [hl] at h
    | ok t =>
      simp only [hl] at h
      rw [areaLevelLoop_frame T k rest _ levels' h (fun q hq => hk q (by simp [hq]))]
      exact mapGet_mapSet_other _ _ _ (Ne.symm (hk (area, level) (by simp))) _

theorem areaLevelLoop_get (T : RuneTables) (p : GoString × GoString) (t : Threshold)
    (hp : LogLevelToThreshold T p.2 = .ok t) :
    ∀ (areaLevels : List (GoString × GoString)) (levels levels' : List (GoString × Threshold)),
      areaLevelLoop T levels areaLevels = (levels', none) → p ∈ areaLevels →
      (∀ q ∈ areaLevels, ToLower T q.1 = ToLower T p.1 → q = p) →
      mapGet levels' (ToLower T p.1) = some t
  | [], _, _, _, hmem, _ => by simp at hmem
  | (area, level) :: rest, levels, levels', h, hmem, huniq => by
    simp only [areaLevelLoop] at h
    cases hl : LogLevelToThreshold T level with
    | error msg => simp [hl] at h
    | ok t' =>
      simp only [hl] at h
      by_cases hin : p ∈ rest
      · exact areaLevelLoop_get T p t hp rest _ levels' h hin
          (fun q hq => huniq q (by simp [hq]))
      · have hpe : p = (area, level) := by
          rcases List.mem_cons.mp hmem with h1 | h1
          · exact h1
          · exact absurd h1 hin
        subst hpe
        rw [hl] at hp
        cases hp
        rw [areaLevelLoop_frame T _ rest _ levels' h]
        · exact mapGet_mapSet_same _ _ _
        · intro q hq hlow
          have := huniq q (by simp [hq]) hlow
          exact hin (this ▸ hq)

theorem Loggers_unit (f : GoString → Logger → Logger) :
    ∀ l : List (GoString × Logger),
      (Loggers (fun name logger (_ : Unit) => (f name logger, ())) l ()).1
        = l.map fun e => (e.1, f e.1 e.2)
  | [] => rfl
  | (name, logger) :: rest => by
    simp only [Loggers, List.map_cons, Loggers_unit f rest]

theorem LogLevel_returned (T : RuneTables) {st st' : State} {defaultLevel : GoString}
    {areaLevels : List (GoString × GoString)}
    (h : LogLevel T st defaultLevel areaLevels = .returned st') :
    ∃ t, LogLevelToThreshold T defaultLevel = .ok t ∧
      areaLevelLoop T st.levels areaLevels = (st'.levels, none) ∧
      st'.OutThreshold = t ∧ st'.LogThreshold = t ∧
      st'.loggers = st.loggers.map (fun e =>
        (e.1, { e.2 with Notepad :=
          e.2.Notepad.SetStdoutThreshold (LogLevelForArea T st' e.1) })) ∧
      st'.LogAreaPadding = st.LogAreaPadding ∧ st'.uiChan = st.uiChan ∧
      st'.allocated = st.allocated := by
  unfold LogLevel at h
  cases hd : LogLevelToThreshold T defaultLevel with
  | error msg => simp [hd] at h
  | ok t =>
    simp only [hd] at h
    cases hloop : areaLevelLoop T st.levels areaLevels with
    | mk levels msg =>
      cases msg with
      | some m => simp [hloop] at h
      | none =>
        simp only [hloop, Outcome.returned.injEq] at h
        subst h
        refine ⟨t, rfl, rfl, rfl, rfl, ?_, rfl, rfl, rfl⟩
        exact Loggers_unit _ _

/-- C3, as the code has it: after a `LogLevel(defaultLevel, areaLevels)` call
that returns, for every pair `(area, level)` of `areaLevels` with which no
other pair shares the lower-cased area, and for every casing `a` of `area`
(every string with the same lower-casing, in particular every string that
differs from `area` only in the case of ASCII letters), `LogLevelForArea a` is
the threshold parsed from `level`, whatever the default is. -/
theorem LogLevelForArea_override (T : RuneTables) (st st' : State) (defaultLevel : GoString)
    (areaLevels : List (GoString × GoString)) (p : GoString × GoString) (t : Threshold)
    (hret : LogLevel T st defaultLevel areaLevels = .returned st')
    (hp : p ∈ areaLevels)
    (huniq : ∀ q ∈ areaLevels, ToLower T q.1 = ToLower T p.1 → q = p)
    (ht : LogLevelToThreshold T p.2 = .ok t) :
    (∀ a : GoString, ToLower T a = ToLower T p.1 → LogLevelForArea T st' a = t) ∧
      (∀ a : GoString, IsCasingOf a p.1 → LogLevelForArea T st' a = t) := by
  obtain ⟨_, _, hloop, _⟩ := LogLevel_returned T hret
  have hget := areaLevelLoop_get T p t ht areaLevels _ _ hloop hp huniq
  have h1 : ∀ a : GoString, ToLower T a = ToLower T p.1 → LogLevelForArea T st' a = t := by
    intro a ha
    unfold LogLevelForArea
    rw [ha, hget]
  exact ⟨h1, fun a ha => h1 a (ToLower_casing T ha)⟩

theorem LogLevelForArea_override_witness :
    LogLevelForArea excerptTables
      (LogLevel excerptTables State.init "ERROR".toList
        [("foo".toList, "DEBUG".toList)]).state "FOO".toList = .LevelDebug :=
  (LogLevelForArea_override excerptTables State.init
    (LogLevel excerptTables State.init "ERROR".toList [("foo".toList, "DEBUG".toList)]).state
    "ERROR".toList [("foo".toList, "DEBUG".toList)] ("foo".toList, "DEBUG".toList) .LevelDebug
    (by decide) (by decide) (by decide) (by decide)).2 "FOO".toList
    (by unfold IsCasingOf SameLetter isUpperLetter; decide)

/-- C3 as stated fails: for the map with the two keys `foo` (level `DEBUG`)
and `FOO` (level `ERROR`) the call returns in either iteration order, and in
either order the pair visited first is not honoured: its area resolves to the
level of the other pair. -/
theorem LogLevelForArea_colliding_keys :
    LogLevelToThreshold excerptTables "DEBUG".toList = .ok .LevelDebug ∧
    LogLevelToThreshold excerptTables "ERROR".toList = .ok .LevelError ∧
    (LogLevel excerptTables State.init "INFO".toList fooLevels).isPanic = false ∧
    ("foo".toList, "DEBUG".toList) ∈ fooLevels ∧
    LogLevelForArea excerptTables
      (LogLevel excerptTables State.init "INFO".toList fooLevels).state "foo".toList
        = .LevelError ∧
    (LogLevel excerptTables State.init "INFO".toList fooLevels.reverse).isPanic = false ∧
    ("FOO".toList, "ERROR".toList) ∈ fooLevels.reverse ∧
    LogLevelForArea excerptTables
      (LogLevel excerptTables State.init "INFO".toList fooLevels.reverse).state "FOO".toList
        = .LevelDebug := by
  decide

/-- C4: after a `LogLevel(defaultLevel, areaLevels)` call that returns, every
area whose lower-cased form has no entry in the override table resolves,
through `LogLevelForArea`, to the threshold parsed from `defaultLevel`. -/
theorem LogLevelForArea_default (T : RuneTables) (st st' : State) (defaultLevel : GoString)
    (areaLevels : List (GoString × GoString)) (area : GoString)
    (hret : LogLevel T st defaultLevel areaLevels = .returned st')
    (hno : mapGet st'.levels (ToLower T area) = none) :
    LogLevelToThreshold T defaultLevel = .ok (LogLevelForArea T st' area) := by
  obtain ⟨t, hd, _, hout, _⟩ := LogLevel_returned T hret
  unfold LogLevelForArea
  rw [hno, hd, hout]

theorem LogLevelForArea_default_witness :
    LogLevel excerptTables State.init "ERROR".toList [("foo".toList, "DEBUG".toList)]
      = .returned (LogLevel excerptTables State.init "ERROR".toList
          [("foo".toList, "DEBUG".toList)]).state ∧
    LogLevelForArea excerptTables
      (LogLevel excerptTables State.init "ERROR".toList
        [("foo".toList, "DEBUG".toList)]).state "bar".toList = .LevelError := by
  refine ⟨by decide, ?_⟩
  have h := LogLevelForArea_default excerptTables State.init
    (LogLevel excerptTables State.init "ERROR".toList [("foo".toList, "DEBUG".toList)]).state
    "ERROR".toList [("foo".toList, "DEBUG".toList)] "bar".toList (by decide) (by decide)
  have h2 : LogLevelToThreshold excerptTables "ERROR".toList = .ok .LevelError := by decide
  rw [h2] at h
  exact (Except.ok.inj h).symm

/-! ## Theorems: the registry -/

theorem mapGet_eq_none_iff {V : Type} (k : GoString) :
    ∀ m : List (GoString × V), mapGet m k = none ↔ k ∉ m.map Prod.fst
  | [] => by simp [mapGet]
  | (k', v') :: rest => by
    by_cases h : k' = k
    · subst h
      simp only [mapGet, if_true, List.map_cons]
      constructor
      · intro hn
        cases hn
      · intro hn
        exact absurd (List.Mem.head _) hn
    · simp only [mapGet, if_neg h, List.map_cons, List.mem_cons, not_or,
        mapGet_eq_none_iff k rest]
      exact ⟨fun hr => ⟨fun hk => h hk.symm, hr⟩, fun hr => hr.2⟩

theorem mapGet_some_mem {V : Type} (k : GoString) (v : V) :
    ∀ m : List (GoString × V), mapGet m k = some v → (k, v) ∈ m
  | [], h => by simp [mapGet] at h
  | (k', v') :: rest, h => by
    by_cases hk : k' = k
    · simp only [mapGet, if_pos hk, Option.some.injEq] at h
      subst hk
      subst h
      exact List.Mem.head _
    · simp only [mapGet, if_neg hk] at h
      exact List.mem_cons_of_mem _ (mapGet_some_mem k v rest h)

theorem mapSet_absent {V : Type} (k : GoString) (v : V) :
    ∀ m : List (GoString × V), mapGet m k = none → mapSet m k v = m ++ [(k, v)]
  | [], _ => rfl
  | (k', v') :: rest, h => by
    by_cases hk : k' = k
    · simp [mapGet, hk] at h
    · simp only [mapGet, if_neg hk] at h
      simp only [mapSet, if_neg hk, List.cons_append, mapSet_absent k v rest h]

theorem NewLogger_present (T : RuneTables) (st : State) (area : GoString) (l : Logger)
    (h : mapGet st.loggers area = some l) : NewLogger T st area = (st, l) := by
  simp only [NewLogger, h]

theorem NewLogger_absent (T : RuneTables) (st : State) (area : GoString)
    (h : mapGet st.loggers area = none) :
    NewLogger T st area =
      ({ st with
          loggers := st.loggers ++ [(area, freshLogger T st area)],
          allocated := st.allocated + 1 },
        freshLogger T st area) := by
  simp only [NewLogger, h, mapSet_absent _ _ _ h, freshLogger]

theorem NewLogger_get (T : RuneTables) (st : State) (area : GoString) :
    mapGet (NewLogger T st area).1.loggers area = some (NewLogger T st area).2 := by
  cases h : mapGet st.loggers area with
  | some l => rw [NewLogger_present T st area l h]; exact h
  | none =>
    simp only [NewLogger, h]
    exact mapGet_mapSet_same _ _ _

theorem NewLogger_twice (T : RuneTables) (st : State) (area : GoString) :
    NewLogger T (NewLogger T st area).1 area = ((NewLogger T st area).1, (NewLogger T st area).2) :=
  NewLogger_present T _ area _ (NewLogger_get T st area)

theorem RegistryInv_NewLogger (T : RuneTables) (st : State) (area : GoString)
    (h : RegistryInv st) : RegistryInv (NewLogger T st area).1 := by
  cases hg : mapGet st.loggers area with
  | some l => rw [NewLogger_present T st area l hg]; exact h
  | none =>
    rw [NewLogger_absent T st area hg]
    obtain ⟨h1, h2, h3, h4⟩ := h
    have hk : area ∉ st.loggers.map Prod.fst := (mapGet_eq_none_iff area _).mp hg
    refine ⟨?_, ?_, ?_, by simp [h4]⟩
    · simp only [List.map_append, List.map_cons, List.map_nil]
      exact List.Nodup.append h1 (List.nodup_singleton _) (List.disjoint_singleton.mpr hk)
    · intro e he
      simp only [List.mem_append, List.mem_singleton] at he
      rcases he with he | he
      · exact ⟨(h2 e he).1, Nat.lt_succ_of_lt (h2 e he).2⟩
      · subst he
        exact ⟨rfl, Nat.lt_succ_self _⟩
    · simp only [List.map_append, List.map_cons, List.map_nil]
      refine List.Nodup.append h3 (List.nodup_singleton _) ?_
      simp only [List.disjoint_singleton, List.mem_map, not_exists, not_and]
      intro e he heq
      have := (h2 e he).2
      simp only [freshLogger] at heq
      omega

theorem RegistryInv_map (st st' : State) (f : GoString → Logger → Logger)
    (hf : ∀ k l, (f k l).name = l.name ∧ (f k l).addr = l.addr)
    (hl : st'.loggers = st.loggers.map fun e => (e.1, f e.1 e.2))
    (ha : st'.allocated = st.allocated) (h : RegistryInv st) : RegistryInv st' := by
  obtain ⟨h1, h2, h3, h4⟩ := h
  unfold RegistryInv
  rw [hl, ha]
  refine ⟨?_, ?_, ?_, by simp [h4]⟩
  · simpa [List.map_map, Function.comp_def] using h1
  · intro e he
    obtain ⟨e0, he0, rfl⟩ := List.mem_map.mp he
    simp only [(hf e0.1 e0.2).1, (hf e0.1 e0.2).2]
    exact h2 e0 he0
  · simpa [List.map_map, Function.comp_def, hf] using h3

theorem Reachable_RegistryInv (T : RuneTables) {st : State} (h : Reachable T st) :
    RegistryInv st := by
  induction h with
  | init => simp [RegistryInv, State.init]
  | newLogger area _ ih => exact RegistryInv_NewLogger T _ area ih
  | logLevel d m _ hret ih =>
    obtain ⟨_, _, _, _, _, hl, _, _, ha⟩ := LogLevel_returned T hret
    exact RegistryInv_map _ _
      (fun k l => { l with Notepad := l.Notepad.SetStdoutThreshold (LogLevelForArea T _ k) })
      (fun _ _ => ⟨rfl, rfl⟩) hl ha ih
  | captureLogs c _ ih =>
    exact RegistryInv_map _ (CaptureLogs _ c)
      (fun _ l => { l with Notepad :=
        { l.Notepad with
          WARN := captureLogger "warn".toList l.Notepad.WARN,
          ERROR := captureLogger "error".toList l.Notepad.ERROR,
          FATAL := captureLogger "error".toList l.Notepad.FATAL } })
      (fun _ _ => ⟨rfl, rfl⟩) rfl rfl ih

/-- C5: registry get-or-create is idempotent. In every state, `NewLogger(area)`
called twice in a row returns the same `Logger` instance both times and the
second call leaves the state unchanged (the registry is the same and nothing
is constructed); a call for a registered area returns the registered instance
without constructing anything; and in every reachable state the registry
holds one logger per distinct area string: keys are pairwise distinct, each
logger is stored under its own name, no instance is stored twice, and the
number of loggers constructed equals the number of registered areas. -/
theorem NewLogger_idempotent (T : RuneTables) (st : State) (area : GoString) :
    (NewLogger T (NewLogger T st area).1 area).2 = (NewLogger T st area).2 ∧
    (NewLogger T (NewLogger T st area).1 area).1 = (NewLogger T st area).1 ∧
    (∀ l, mapGet st.loggers area = some l →
      NewLogger T st area = (st, l) ∧ (NewLogger T st area).1.allocated = st.allocated) ∧
    (Reachable T st → RegistryInv st ∧ RegistryInv (NewLogger T st area).1) := by
  refine ⟨?_, ?_, ?_, ?_⟩
  · rw [NewLogger_twice]
  · rw [NewLogger_twice]
  · intro l hl
    rw [NewLogger_present T st area l hl]
    exact ⟨rfl, rfl⟩
  · intro h
    exact ⟨Reachable_RegistryInv T h, Reachable_RegistryInv T (Reachable.newLogger area h)⟩

theorem NewLogger_idempotent_witness :
    Reachable excerptTables State.init ∧ RegistryInv fooState ∧
      (NewLogger excerptTables fooState "foo".toList).1 = fooState ∧
      (NewLogger excerptTables fooState "foo".toList).2.addr = 0 :=
  ⟨Reachable.init,
    ((NewLogger_idempotent excerptTables State.init "foo".toList).2.2.2 Reachable.init).2,
    (NewLogger_idempotent excerptTables State.init "foo".toList).2.1,
    (congrArg Logger.addr (NewLogger_idempotent excerptTables State.init "foo".toList).1).trans
      rfl⟩

/-! ## Theorems: live reconfiguration -/

theorem LogLevelForArea_congr (T : RuneTables) (st st' : State)
    (hl : st'.levels = st.levels) (ho : st'.OutThreshold = st.OutThreshold) (area : GoString) :
    LogLevelForArea T st' area = LogLevelForArea T st area := by
  unfold LogLevelForArea
  rw [hl, ho]

theorem ThresholdInv_NewLogger (T : RuneTables) (st : State) (area : GoString)
    (h : ThresholdInv T st) : ThresholdInv T (NewLogger T st area).1 := by
  cases hg : mapGet st.loggers area with
  | some l => rw [NewLogger_present T st area l hg]; exact h
  | none =>
    rw [NewLogger_absent T st area hg]
    intro e he
    change e.2.Notepad.stdoutThreshold = LogLevelForArea T st e.2.name
    change e ∈ st.loggers ++ [(area, freshLogger T st area)] at he
    simp only [List.mem_append, List.mem_singleton] at he
    rcases he with he | he
    · exact h e he
    · subst he
      rfl

theorem Reachable_ThresholdInv (T : RuneTables) {st : State} (h : Reachable T st) :
    ThresholdInv T st := by
  induction h with
  | init => intro e he; simp [State.init] at he
  | newLogger area _ ih => exact ThresholdInv_NewLogger T _ area ih
  | @logLevel st st' d m hr hret ih =>
    obtain ⟨_, _, _, _, _, hl, _, _, _⟩ := LogLevel_returned T hret
    have hreg := Reachable_RegistryInv T hr
    intro e he
    rw [hl] at he
    obtain ⟨e0, he0, rfl⟩ := List.mem_map.mp he
    simp only [Notepad.SetStdoutThreshold, (hreg.2.1 e0 he0).1]
  | @captureLogs st c _ ih =>
    intro e he
    simp only [CaptureLogs, List.mem_map] at he
    obtain ⟨e0, he0, rfl⟩ := he
    rw [LogLevelForArea_congr T st (CaptureLogs st c) rfl rfl]
    exact ih e0 he0

/-- C6: live reconfiguration. In every state reachable from the initial state
by `NewLogger` calls and returning `LogLevel` calls (and `CaptureLogs` calls),
every registered logger's console threshold equals `LogLevelForArea` of its
area in that state; and immediately after a `LogLevel(d, m)` that returns, the
registry holds the same logger instances under the same areas as before, and
every one of them whose lower-cased area has no override has the threshold
parsed from `d` as its console threshold. -/
theorem LogLevel_live_reconfiguration (T : RuneTables) (st st' : State) (d : GoString)
    (m : List (GoString × GoString)) :
    (Reachable T st → ∀ e ∈ st.loggers,
      e.2.Notepad.stdoutThreshold = LogLevelForArea T st e.2.name) ∧
    (LogLevel T st d m = .returned st' →
      (st'.loggers.map fun e => (e.1, e.2.addr, e.2.name))
        = (st.loggers.map fun e => (e.1, e.2.addr, e.2.name)) ∧
      ∀ e ∈ st'.loggers, mapGet st'.levels (ToLower T e.1) = none →
        LogLevelToThreshold T d = .ok e.2.Notepad.stdoutThreshold) := by
  refine ⟨fun h => Reachable_ThresholdInv T h, ?_⟩
  intro hret
  obtain ⟨t, hd, _, hout, _, hl, _, _, _⟩ := LogLevel_returned T hret
  refine ⟨?_, ?_⟩
  · rw [hl]
    simp [List.map_map, Function.comp_def]
  · intro e he hno
    rw [hl] at he
    obtain ⟨e0, he0, rfl⟩ := List.mem_map.mp he
    simp only [Notepad.SetStdoutThreshold, LogLevelForArea] at hno ⊢
    rw [hno, hd, hout]

theorem LogLevel_live_reconfiguration_witness :
    Reachable excerptTables fooState ∧
      LogLevel excerptTables fooState "DEBUG".toList []
        = .returned (LogLevel excerptTables fooState "DEBUG".toList []).state ∧
      (fooState.loggers.map fun e => e.2.Notepad.stdoutThreshold) = [.LevelError] ∧
      ((LogLevel excerptTables fooState "DEBUG".toList []).state.loggers.map
        fun e => e.2.Notepad.stdoutThreshold) = [.LevelDebug] ∧
      ∀ e ∈ (LogLevel excerptTables fooState "DEBUG".toList []).state.loggers,
        mapGet (LogLevel excerptTables fooState "DEBUG".toList []).state.levels
            (ToLower excerptTables e.1) = none →
          LogLevelToThreshold excerptTables "DEBUG".toList = .ok e.2.Notepad.stdoutThreshold :=
  ⟨Reachable.newLogger _ Reachable.init, rfl, rfl, rfl,
    ((LogLevel_live_reconfiguration excerptTables fooState
      (LogLevel excerptTables fooState "DEBUG".toList []).state "DEBUG".toList []).2 rfl).2⟩

/-! ## Theorems: the fan-out writer -/

theorem len_eq_zero_iff (p : GoString) : len p = 0 ↔ p = [] := by
  cases p with
  | nil => simp [len]
  | cons c s =>
    have hc : 0 < c.utf8Size := Char.utf8Size_pos c
    simp only [len, List.map_cons, List.sum_cons]
    constructor
    · intro h
      omega
    · intro h
      cases h

theorem multiWrite_ok_or_err (T : RuneTables) (out : GoString → WriteResult) (p : GoString) :
    ∀ ws : List Leaf, (multiWrite T out ws p).2.2 = none → (multiWrite T out ws p).2.1 = len p
  | [] => fun _ => rfl
  | w :: ws => by
    intro h
    simp only [multiWrite] at h ⊢
    split at h
    · rename_i herr
      exact absurd h herr
    · split at h
      · cases h
      · rename_i herr hn
        rw [if_neg herr, if_neg hn]
        exact multiWrite_ok_or_err T out p ws h

theorem multiWrite_cons (T : RuneTables) (out : GoString → WriteResult) (w : Leaf)
    (ws : List Leaf) (p : GoString) :
    multiWrite T out (w :: ws) p =
      if (w.Write T out p).2.2 ≠ none then w.Write T out p
      else if (w.Write T out p).2.1 ≠ len p then
        ((w.Write T out p).1, (w.Write T out p).2.1, some ErrShortWrite)
      else ((w.Write T out p).1 ++ (multiWrite T out ws p).1, (multiWrite T out ws p).2) := by
  rfl

theorem multiWrite_snoc (T : RuneTables) (out : GoString → WriteResult) (level p : GoString) :
    ∀ ws : List Leaf,
      multiWrite T out (ws ++ [.ui ⟨level⟩]) p = fanOutResult T level p (multiWrite T out ws p)
  | [] => by
    rw [List.nil_append, multiWrite_cons]
    simp only [multiWrite, Leaf.Write, uiWriter.Write, fanOutResult]
    by_cases hp : len p = 0
    · simp [hp]
    · have hp' : ¬ (0 = len p) := fun h => hp h.symm
      simp [hp, hp']
  | w :: ws => by
    rw [List.cons_append, multiWrite_cons, multiWrite_cons, multiWrite_snoc T out level p ws]
    generalize Leaf.Write T out w p = r
    generalize multiWrite T out ws p = r2
    obtain ⟨ev, n, err⟩ := r
    obtain ⟨ev2, n2, err2⟩ := r2
    by_cases herr : err = none
    · by_cases hn : n = len p
      · simp only [herr, hn, ne_eq, not_true_eq_false, if_false, fanOutResult]
        split_ifs <;> simp [List.append_assoc]
      · simp [herr, hn, fanOutResult]
    · simp [herr, fanOutResult]

theorem fanOutResult_single (T : RuneTables) (out : GoString → WriteResult)
    (level : GoString) (l : Leaf) (p : GoString) :
    fanOutResult T level p (multiWrite T out [l] p)
      = fanOutResult T level p (l.Write T out p) := by
  rw [multiWrite_cons]
  generalize Leaf.Write T out l p = r
  obtain ⟨ev, n, err⟩ := r
  by_cases herr : err = none
  · by_cases hn : n = len p
    · simp [herr, hn, fanOutResult, multiWrite]
    · simp [herr, hn, fanOutResult]
  · simp [herr, fanOutResult]

theorem captureLogger_Write (T : RuneTables) (out : GoString → WriteResult)
    (level : GoString) (orig : Writer) (p : GoString) :
    (captureLogger level orig).Write T out p = fanOutResult T level p (orig.Write T out p) := by
  cases orig with
  | multi ws =>
    simp only [captureLogger, MultiWriter, List.flatMap_cons, List.flatMap_nil,
      List.append_nil, Writer.Write]
    exact multiWrite_snoc T out level p ws
  | single l =>
    simp only [captureLogger, MultiWriter, List.flatMap_cons, List.flatMap_nil,
      List.append_nil, Writer.Write]
    rw [multiWrite_snoc T out level p [l], fanOutResult_single]

/-- C7, as the code has it: the `Write` of the `uiWriter` transformer itself
returns zero bytes and no error for every `p`. The fan-out writer that
`captureLogger` installs over the original sink returns what `fanOutResult`
says: the original sink's own result when that write reports an error, a
short write when it reports fewer than `len(p)` bytes, and otherwise zero
bytes with `io.ErrShortWrite` when `p` is non-empty; it returns zero bytes
and no error only for an empty `p`, and for every non-empty `p` it returns an
error. -/
theorem captureLogger_Write_result (T : RuneTables) (out : GoString → WriteResult)
    (level : GoString) (orig : Writer) (p : GoString) :
    (uiWriter.Write T ⟨level⟩ p).2 = (0, none) ∧
    (captureLogger level orig).Write T out p = fanOutResult T level p (orig.Write T out p) ∧
    (((captureLogger level orig).Write T out p).2 = (0, none) → p = []) ∧
    (p ≠ [] → ((captureLogger level orig).Write T out p).2.2 ≠ none) := by
  have hne : p ≠ [] → ((captureLogger level orig).Write T out p).2.2 ≠ none := by
    intro hp
    have hlen : len p ≠ 0 := fun h => hp ((len_eq_zero_iff p).mp h)
    rw [captureLogger_Write]
    unfold fanOutResult
    split_ifs with h1 h2
    · exact h1
    · simp
    · simp
  refine ⟨rfl, captureLogger_Write T out level orig p, ?_, hne⟩
  intro h
  by_contra hp
  exact hne hp (by rw [h])

theorem captureLogger_Write_result_witness :
    "boom".toList ≠ [] ∧
      ((captureLogger "error".toList (.single (.sink .Discard))).Write excerptTables
        stdoutAccepts "boom".toList).2.2 ≠ none :=
  ⟨by decide,
    (captureLogger_Write_result excerptTables stdoutAccepts "error".toList
      (.single (.sink .Discard)) "boom".toList).2.2.2 (by decide)⟩

/-- C7 as stated fails: a write of the non-empty line `boom` to the fan-out
writer over the sinks of a fresh logger returns `io.ErrShortWrite` although
both original sinks accepted the line, and over a failing `os.Stdout` it
returns that failure and the transformer is not run (no event is sent). -/
theorem captureLogger_Write_short_write :
    (captureLogger "error".toList
        (MultiWriter [.single (.sink .Stdout), .single (.sink .Discard)])).Write
      excerptTables stdoutAccepts "boom".toList
        = ([⟨"error".toList, "boom".toList⟩], (0, some ErrShortWrite)) ∧
    (captureLogger "error".toList
        (MultiWriter [.single (.sink .Stdout), .single (.sink .Discard)])).Write
      excerptTables stdoutBroken "boom".toList
        = ([], (0, some "EPIPE".toList)) := by
  decide

/-! ## Theorems: prefix removal -/

theorem padLoop_eq (n : Int) :
    ∀ (k : Nat) (s : GoString), (n - len s).toNat = k → padLoop n s = s ++ List.replicate k ' '
  | 0, s, h => by
    rw [padLoop, if_neg (by omega)]
    simp
  | k + 1, s, h => by
    have hlen : len (s ++ [' ']) = len s + 1 := by
      simp [len]
      rfl
    rw [padLoop, if_pos (by omega), padLoop_eq n k (s ++ [' ']) (by rw [hlen]; omega)]
    simp [List.replicate_succ]

theorem matchRep_zero (cls : Char → Bool) (k : GoString → Option GoString) (s : GoString) :
    matchRep cls k 0 (some 0) s = k s := by
  cases s with
  | nil => simp [matchRep]
  | cons c s => simp [matchRep]

theorem matchRep_exact (cls : Char → Bool) (k : GoString → Option GoString) (rest : GoString) :
    ∀ xs : GoString, (∀ x ∈ xs, cls x = true) →
      matchRep cls k xs.length (some xs.length) (xs ++ rest) = k rest
  | [], _ => matchRep_zero cls k rest
  | x :: xs, h => by
    have hx : cls x = true := h x (by simp)
    have ih := matchRep_exact cls k rest xs (fun y hy => h y (by simp [hy]))
    simp only [List.length_cons, List.cons_append, matchRep, hx, Option.map_some',
      Nat.add_sub_cancel, List.append_eq]
    rw [ih]
    cases k rest <;> simp

theorem matchRep_lit (c : Char) (k : GoString → Option GoString) (s : GoString) :
    matchRep (Atom.lit c).cls k (Atom.lit c).min (Atom.lit c).max (c :: s) = k s := by
  have h := matchRep_exact (Atom.lit c).cls k s [c] (by simp [Atom.lit])
  simpa [Atom.lit] using h

theorem matchRep_greedy (cls : Char → Bool) (k : GoString → Option GoString)
    (rest r : GoString) (hrest : ∀ c ∈ rest.head?, cls c = false) (hk : k rest = some r) :
    ∀ (xs : GoString) (min : Nat), (∀ x ∈ xs, cls x = true) → min ≤ xs.length →
      matchRep cls k min none (xs ++ rest) = some r
  | [], min, _, hmin => by
    have hmin0 : min = 0 := by simpa using hmin
    subst hmin0
    cases rest with
    | nil => simpa [matchRep] using hk
    | cons c s =>
      have hc : cls c = false := hrest c (by simp)
      simpa [matchRep, hc] using hk
  | x :: xs, min, h, hmin => by
    have hx : cls x = true := h x (by simp)
    have ih := matchRep_greedy cls k rest r hrest hk xs (min - 1)
      (fun y hy => h y (by simp [hy])) (by simp at hmin; omega)
    simp only [List.cons_append, matchRep, hx, Option.map_none', List.append_eq]
    rw [ih]
    simp

theorem matchAtoms_renderLine (area level timestamp body : GoString) (n : Nat)
    (harea : area ≠ [] ∧ ∀ c ∈ area, reArea c = true)
    (hlevel : level ≠ [] ∧ ∀ c ∈ level, reWord c = true)
    (hts : timestamp.length = 19 ∧ ∀ c ∈ timestamp, reDot c = true) :
    matchAtoms logLineRe (renderLine (area ++ List.replicate n ' ') level timestamp body)
      = some (body ++ ['\n']) := by
  have h9 : matchAtoms [Atom.lit ' '] (' ' :: (body ++ ['\n'])) = some (body ++ ['\n']) := by
    simp only [matchAtoms]
    rw [matchRep_lit]
  have h8 : matchAtoms [⟨reDot, 19, some 19⟩, Atom.lit ' ']
      (timestamp ++ (' ' :: (body ++ ['\n']))) = some (body ++ ['\n']) := by
    rw [matchAtoms]
    have := matchRep_exact reDot (matchAtoms [Atom.lit ' ']) (' ' :: (body ++ ['\n']))
      timestamp hts.2
    rw [hts.1] at this
    rw [this, h9]
  have h7 : matchAtoms [Atom.lit ' ', ⟨reDot, 19, some 19⟩, Atom.lit ' ']
      (' ' :: (timestamp ++ (' ' :: (body ++ ['\n'])))) = some (body ++ ['\n']) := by
    rw [matchAtoms, matchRep_lit, h8]
  have h6 : matchAtoms [⟨reWord, 1, none⟩, Atom.lit ' ', ⟨reDot, 19, some 19⟩, Atom.lit ' ']
      (level ++ (' ' :: (timestamp ++ (' ' :: (body ++ ['\n']))))) = some (body ++ ['\n']) := by
    rw [matchAtoms]
    refine matchRep_greedy reWord _ _ _ ?_ h7 level 1 hlevel.2 ?_
    · intro c hc
      simp only [List.head?_cons, Option.mem_def, Option.some.injEq] at hc
      subst hc
      decide
    · cases level with
      | nil => exact absurd rfl hlevel.1
      | cons c s => simp
  have h4 : matchAtoms [Atom.lit ']', Atom.lit ' ', ⟨reWord, 1, none⟩, Atom.lit ' ',
      ⟨reDot, 19, some 19⟩, Atom.lit ' ']
      (']' :: ' ' :: (level ++ (' ' :: (timestamp ++ (' ' :: (body ++ ['\n']))))))
        = some (body ++ ['\n']) := by
    rw [matchAtoms, matchRep_lit, matchAtoms, matchRep_lit, h6]
  have h3 : matchAtoms [⟨reSpace, 0, none⟩, Atom.lit ']', Atom.lit ' ', ⟨reWord, 1, none⟩,
      Atom.lit ' ', ⟨reDot, 19, some 19⟩, Atom.lit ' ']
      (List.replicate n ' ' ++
        (']' :: ' ' :: (level ++ (' ' :: (timestamp ++ (' ' :: (body ++ ['\n'])))))))
        = some (body ++ ['\n']) := by
    rw [matchAtoms]
    refine matchRep_greedy reSpace _ _ _ ?_ h4 (List.replicate n ' ') 0 ?_ (Nat.zero_le _)
    · intro c hc
      simp only [List.head?_cons, Option.mem_def, Option.some.injEq] at hc
      subst hc
      decide
    · intro x hx
      rw [(List.mem_replicate.mp hx).2]
      decide
  have h2 : matchAtoms [⟨reArea, 1, none⟩, ⟨reSpace, 0, none⟩, Atom.lit ']', Atom.lit ' ',
      ⟨reWord, 1, none⟩, Atom.lit ' ', ⟨reDot, 19, some 19⟩, Atom.lit ' ']
      (area ++ (List.replicate n ' ' ++
        (']' :: ' ' :: (level ++ (' ' :: (timestamp ++ (' ' :: (body ++ ['\n']))))))))
        = some (body ++ ['\n']) := by
    rw [matchAtoms]
    refine matchRep_greedy reArea _ _ _ ?_ h3 area 1 harea.2 ?_
    · intro c hc
      cases n with
      | zero =>
        simp only [List.replicate_zero, List.nil_append, List.head?_cons, Option.mem_def,
          Option.some.injEq] at hc
        subst hc
        decide
      | succ m =>
        simp only [List.replicate_succ, List.cons_append, List.head?_cons, Option.mem_def,
          Option.some.injEq] at hc
        subst hc
        decide
    · cases area with
      | nil => exact absurd rfl harea.1
      | cons c s => simp
  unfold renderLine logLineRe
  rw [matchAtoms, matchRep_lit, List.append_assoc, h2]

theorem trimRightFunc_concat (f : Char → Bool) (s : GoString) (c : Char) (hc : f c = true) :
    trimRightFunc f (s ++ [c]) = trimRightFunc f s := by
  unfold trimRightFunc
  rw [List.reverse_concat, List.dropWhile_cons_of_pos hc]

theorem TrimSpace_newline (body : GoString) : TrimSpace (body ++ ['\n']) = TrimSpace body := by
  unfold TrimSpace
  rw [List.dropWhile_append]
  split
  · rename_i h
    have h' : List.dropWhile IsSpace body = [] := by simpa using h
    rw [h']
    rfl
  · exact trimRightFunc_concat IsSpace _ '\n' (by decide)

theorem reReplaceAll_renderLine (area level timestamp body : GoString) (n : Nat)
    (harea : area ≠ [] ∧ ∀ c ∈ area, reArea c = true)
    (hlevel : level ≠ [] ∧ ∀ c ∈ level, reWord c = true)
    (hts : timestamp.length = 19 ∧ ∀ c ∈ timestamp, reDot c = true) :
    reReplaceAll (renderLine (area ++ List.replicate n ' ') level timestamp body)
      = body ++ ['\n'] := by
  unfold reReplaceAll
  rw [matchAtoms_renderLine area level timestamp body n harea hlevel hts]

theorem capturedLevels_word : ∀ level ∈ capturedLevels,
    level ≠ [] ∧ ∀ c ∈ level, reWord c = true := by
  decide

theorem reDot_of_ne_newline (c : Char) (h : c ≠ '\n') : reDot c = true := by
  unfold reDot
  simp only [ne_eq, decide_eq_true_eq]
  intro h10
  apply h
  rw [← Char.ofNat_toNat c, h10]

/-- C8, as the code has it: for every non-empty area made of the characters
`a-z`, `A-Z`, `0-9` and `-`, every level word among WARN, ERROR, FATAL, every
19-character timestamp without a line break and every message body,
`uiWriter.Write` applied to the rendered line
`[<area right-padded>] <LEVEL> <timestamp> <body>\n` publishes exactly one
event, with the writer's label as `Key` and a `Val` computed from the body
alone (the whitespace-trimmed, escaped body): the whole prefix is removed. -/
theorem uiWriter_Write_renderLine (T : RuneTables) (w : uiWriter) (LogAreaPadding : Int)
    (area level timestamp body : GoString)
    (harea : area ≠ [] ∧ ∀ c ∈ area, reArea c = true)
    (hlevel : level ∈ capturedLevels)
    (hts : timestamp.length = 19 ∧ ∀ c ∈ timestamp, c ≠ '\n') :
    w.Write T (renderLine (padLoop LogAreaPadding area) level timestamp body)
      = ([{ Key := w.level, Val := Trim (Quote T (TrimSpace body)) ['"'] }], (0, none)) := by
  unfold uiWriter.Write
  rw [padLoop_eq LogAreaPadding _ area rfl,
    reReplaceAll_renderLine area level timestamp body _ harea (capturedLevels_word level hlevel)
      ⟨hts.1, fun c hc => reDot_of_ne_newline c (hts.2 c hc)⟩]
  simp only [TrimSpace_newline]

theorem uiWriter_Write_renderLine_witness :
    uiWriter.Write excerptTables ⟨"error".toList⟩
      (renderLine (padLoop 6 "foo".toList) "ERROR".toList "2020/01/01 00:00:00".toList
        "boom".toList)
      = ([⟨"error".toList, "boom".toList⟩], (0, none)) :=
  (uiWriter_Write_renderLine excerptTables ⟨"error".toList⟩ 6 "foo".toList "ERROR".toList
    "2020/01/01 00:00:00".toList "boom".toList (by decide) (by decide) (by decide)).trans
    (by decide)

/-- C8 as stated fails: the `Val` computed from the body `boom` alone is
`boom`, but for the area `a_b` the pattern does not match the rendered line
and the published `Val` is the whole line, prefix included, and the same
happens for the area `foo` when the 19-character timestamp holds a line
break. -/
theorem uiWriter_Write_prefix_kept :
    Trim (Quote excerptTables (TrimSpace "boom".toList)) ['"'] = "boom".toList ∧
    padLoop 6 "a_b".toList = "a_b   ".toList ∧
    uiWriter.Write excerptTables ⟨"error".toList⟩
      (renderLine "a_b   ".toList "ERROR".toList "2020/01/01 00:00:00".toList "boom".toList)
      = ([⟨"error".toList, "[a_b   ] ERROR 2020/01/01 00:00:00 boom".toList⟩], (0, none)) ∧
    padLoop 6 "foo".toList = "foo   ".toList ∧
    "2020/01/01\n00:00:00".toList.length = 19 ∧
    uiWriter.Write excerptTables ⟨"error".toList⟩
      (renderLine "foo   ".toList "ERROR".toList "2020/01/01\n00:00:00".toList "boom".toList)
      = ([⟨"error".toList, "[foo   ] ERROR 2020/01/01\\n00:00:00 boom".toList⟩], (0, none)) := by
  refine ⟨by decide, ?_, by decide, ?_, by decide, by decide⟩
  · rw [padLoop_eq 6 3 _ (by decide)]
    decide
  · rw [padLoop_eq 6 3 _ (by decide)]
    decide

/-! ## Theorems: escaping -/

theorem lowerhex_ne_quote (n : Nat) : lowerhex n ≠ '"' := by
  unfold lowerhex
  have h : n % 16 < 16 := Nat.mod_lt _ (by decide)
  generalize n % 16 = m at h
  interval_cases m <;> decide

theorem appendEscapedRune_shape (T : RuneTables) (r : Char) (hr : r ≠ '"') :
    ∃ h mid l, (appendEscapedRune T r = [l] ∨ appendEscapedRune T r = h :: (mid ++ [l])) ∧
      h ≠ '"' ∧ l ≠ '"' := by
  unfold appendEscapedRune
  by_cases h0 : r = '"' ∨ r = '\\'
  · rw [if_pos h0]
    exact ⟨'\\', [], r, Or.inr rfl, by decide, hr⟩
  rw [if_neg h0]
  by_cases h1 : IsPrint T r = true
  · rw [if_pos h1]
    exact ⟨r, [], r, Or.inl rfl, hr, hr⟩
  rw [if_neg h1]
  by_cases h2 : r.toNat = 7
  · rw [if_pos h2]
    exact ⟨'\\', [], 'a', Or.inr rfl, by decide, by decide⟩
  rw [if_neg h2]
  by_cases h3 : r.toNat = 8
  · rw [if_pos h3]
    exact ⟨'\\', [], 'b', Or.inr rfl, by decide, by decide⟩
  rw [if_neg h3]
  by_cases h4 : r.toNat = 12
  · rw [if_pos h4]
    exact ⟨'\\', [], 'f', Or.inr rfl, by decide, by decide⟩
  rw [if_neg h4]
  by_cases h5 : r.toNat = 10
  · rw [if_pos h5]
    exact ⟨'\\', [], 'n', Or.inr rfl, by decide, by decide⟩
  rw [if_neg h5]
  by_cases h6 : r.toNat = 13
  · rw [if_pos h6]
    exact ⟨'\\', [], 'r', Or.inr rfl, by decide, by decide⟩
  rw [if_neg h6]
  by_cases h7 : r.toNat = 9
  · rw [if_pos h7]
    exact ⟨'\\', [], 't', Or.inr rfl, by decide, by decide⟩
  rw [if_neg h7]
  by_cases h8 : r.toNat = 11
  · rw [if_pos h8]
    exact ⟨'\\', [], 'v', Or.inr rfl, by decide, by decide⟩
  rw [if_neg h8]
  by_cases h9 : r.toNat < 32 ∨ r.toNat = 0x7F
  · rw [if_pos h9]
    exact ⟨'\\', ['x', _], _, Or.inr rfl, by decide, lowerhex_ne_quote _⟩
  rw [if_neg h9]
  by_cases h10 : r.toNat < 0x10000
  · rw [if_pos h10]
    exact ⟨'\\', ['u', _, _, _], _, Or.inr rfl, by decide, lowerhex_ne_quote _⟩
  rw [if_neg h10]
  exact ⟨'\\', ['U', _, _, _, _, _, _, _], _, Or.inr rfl, by decide, lowerhex_ne_quote _⟩

theorem appendEscapedRune_quote (T : RuneTables) : appendEscapedRune T '"' = ['\\', '"'] := by
  unfold appendEscapedRune
  rw [if_pos (Or.inl rfl)]

theorem appendEscapedRune_cons (T : RuneTables) (r : Char) :
    ∃ h t, appendEscapedRune T r = h :: t ∧ h ≠ '"' := by
  by_cases hr : r = '"'
  · subst hr
    exact ⟨'\\', ['"'], appendEscapedRune_quote T, by decide⟩
  · obtain ⟨h, mid, l, hs | hs, hh, hl⟩ := appendEscapedRune_shape T r hr
    · exact ⟨l, [], hs, hl⟩
    · exact ⟨h, mid ++ [l], hs, hh⟩

theorem flatMap_escaped_cons (T : RuneTables) (x : GoString) (hx : x ≠ []) :
    ∃ h t, x.flatMap (appendEscapedRune T) = h :: t ∧ h ≠ '"' := by
  cases x with
  | nil => exact absurd rfl hx
  | cons a x' =>
    obtain ⟨h, t, ht, hh⟩ := appendEscapedRune_cons T a
    exact ⟨h, t ++ x'.flatMap (appendEscapedRune T), by simp [List.flatMap_cons, ht], hh⟩

theorem trimRightFunc_concat_neg (f : Char → Bool) (s : GoString) (c : Char)
    (hc : f c = false) : trimRightFunc f (s ++ [c]) = s ++ [c] := by
  unfold trimRightFunc
  rw [List.reverse_concat, List.dropWhile_cons_of_neg (by simp [hc])]
  simp

theorem Trim_Quote (T : RuneTables) (x : GoString) :
    Trim (Quote T x) ['"'] =
      if x.getLast? = some '"' then (x.flatMap (appendEscapedRune T)).dropLast
      else x.flatMap (appendEscapedRune T) := by
  have hq : (fun c => ['"'].contains c) '"' = true := by decide
  have hnq : ∀ c : Char, c ≠ '"' → (fun c => ['"'].contains c) c = false := by
    intro c hc
    simp [hc]
  rcases List.eq_nil_or_concat x with rfl | ⟨y, z, hx⟩
  · rfl
  · rw [List.concat_eq_append] at hx
    subst hx
    obtain ⟨h, t, ht, hh⟩ := flatMap_escaped_cons T (y ++ [z]) (by simp)
    have hA : Trim (Quote T (y ++ [z])) ['"']
        = trimRightFunc (fun c => ['"'].contains c) ((y ++ [z]).flatMap (appendEscapedRune T)) := by
      unfold Trim Quote
      rw [List.dropWhile_cons_of_pos hq, ht, List.cons_append,
        List.dropWhile_cons_of_neg (by simpa using hh), ← List.cons_append,
        trimRightFunc_concat _ _ _ hq]
    rw [hA, List.getLast?_concat, List.flatMap_append]
    simp only [List.flatMap_cons, List.flatMap_nil, List.append_nil, Option.some.injEq]
    by_cases hz : z = '"'
    · subst hz
      rw [if_pos rfl, appendEscapedRune_quote]
      have e1 : y.flatMap (appendEscapedRune T) ++ ['\\', '"']
          = (y.flatMap (appendEscapedRune T) ++ ['\\']) ++ ['"'] := by simp
      rw [e1, trimRightFunc_concat _ _ _ hq, List.dropLast_concat,
        trimRightFunc_concat_neg _ _ _ (hnq _ (by decide))]
    · rw [if_neg hz]
      obtain ⟨h2, mid, l, hs | hs, _, hl⟩ := appendEscapedRune_shape T z hz
      · rw [hs, trimRightFunc_concat_neg _ _ _ (hnq l hl)]
      · rw [hs]
        have e2 : y.flatMap (appendEscapedRune T) ++ h2 :: (mid ++ [l])
            = (y.flatMap (appendEscapedRune T) ++ h2 :: mid) ++ [l] := by simp
        rw [e2, trimRightFunc_concat_neg _ _ _ (hnq l hl)]

theorem stripOuterPair_Quote (T : RuneTables) (x : GoString) :
    stripOuterPair (Quote T x) = x.flatMap (appendEscapedRune T) := by
  simp [stripOuterPair, Quote]

/-- The `Val` that `uiWriter.Write` publishes for any line: the quoted literal
of the trimmed remainder without its outer quote pair, and without one more
character when the remainder ends in a double quote. -/
theorem uiWriter_Write_val (T : RuneTables) (w : uiWriter) (p : GoString) :
    (w.Write T p).1 =
      [{ Key := w.level,
         Val :=
          if (TrimSpace (reReplaceAll p)).getLast? = some '"' then
            (stripOuterPair (Quote T (TrimSpace (reReplaceAll p)))).dropLast
          else stripOuterPair (Quote T (TrimSpace (reReplaceAll p))) }] := by
  simp only [uiWriter.Write, Trim_Quote, stripOuterPair_Quote]

/-- C9 fails on the code: for the rendered line `[foo   ] ERROR 2020/01/01
00:00:00 say "hi"` the remainder `say "hi"` ends with a double quote; its
quoted literal without the outer quote pair is `say \"hi\"`, but the `Val`
that `uiWriter.Write` publishes is `say \"hi\`: `strings.Trim` removed two
characters at the end, the closing quote and the escaped quote before it. -/
theorem uiWriter_Write_trailing_quote :
    TrimSpace (reReplaceAll quotedLine) = "say \"hi\"".toList ∧
    stripOuterPair (Quote excerptTables (TrimSpace (reReplaceAll quotedLine)))
      = "say \\\"hi\\\"".toList ∧
    (uiWriter.Write excerptTables ⟨"error".toList⟩ quotedLine).1
      = [⟨"error".toList, "say \\\"hi\\".toList⟩] := by
  decide

/-! ## Theorems: event labels -/

theorem levelWriter_leaves (outT logT : Threshold) (o l : Sink) (t : Threshold) (u : uiWriter) :
    Leaf.ui u ∉ (levelWriter outT logT o l t).leaves := by
  unfold levelWriter
  split_ifs <;> simp [MultiWriter, Writer.leaves]

theorem captureLogger_leaves (level : GoString) (w : Writer) :
    (captureLogger level w).leaves = w.leaves ++ [.ui ⟨level⟩] := by
  cases w <;> simp [captureLogger, MultiWriter, Writer.leaves]

theorem Leaf_Write_events (T : RuneTables) (out : GoString → WriteResult) (l : Leaf)
    (p : GoString) (ev : Param) (h : ev ∈ (l.Write T out p).1) :
    ∃ u, l = Leaf.ui u ∧ ev.Key = u.level := by
  cases l with
  | sink s =>
    cases s <;> simp [Leaf.Write] at h
  | ui u =>
    simp only [Leaf.Write, uiWriter.Write, List.mem_singleton] at h
    exact ⟨u, rfl, by rw [h]⟩

theorem multiWrite_events (T : RuneTables) (out : GoString → WriteResult) (p : GoString)
    (ev : Param) :
    ∀ ws : List Leaf, ev ∈ (multiWrite T out ws p).1 → ∃ u, Leaf.ui u ∈ ws ∧ ev.Key = u.level
  | [], h => by simp [multiWrite] at h
  | w :: ws, h => by
    rw [multiWrite_cons] at h
    have hw : ev ∈ (w.Write T out p).1 → ∃ u, Leaf.ui u ∈ w :: ws ∧ ev.Key = u.level := by
      intro hev
      obtain ⟨u, hu, hk⟩ := Leaf_Write_events T out w p ev hev
      exact ⟨u, by simp [hu], hk⟩
    split_ifs at h
    · exact hw h
    · exact hw h
    · rcases List.mem_append.mp h with h1 | h1
      · exact hw h1
      · obtain ⟨u, hu, hk⟩ := multiWrite_events T out p ev ws h1
        exact ⟨u, List.mem_cons_of_mem _ hu, hk⟩

theorem Writer_Write_events (T : RuneTables) (out : GoString → WriteResult) (w : Writer)
    (p : GoString) (ev : Param) (h : ev ∈ (w.Write T out p).1) :
    ∃ u, Leaf.ui u ∈ w.leaves ∧ ev.Key = u.level := by
  cases w with
  | single l =>
    obtain ⟨u, hu, hk⟩ := Leaf_Write_events T out l p ev h
    exact ⟨u, by simp [Writer.leaves, hu], hk⟩
  | multi ws => exact multiWrite_events T out p ev ws h

theorem LabelInv_fresh (outT logT : Threshold) (o l : Sink) (name : GoString) :
    (∀ u, Leaf.ui u ∈ (NewNotepad outT logT o l name).WARN.leaves → u.level = "warn".toList) ∧
    (∀ u, Leaf.ui u ∈ (NewNotepad outT logT o l name).ERROR.leaves → u.level = "error".toList) ∧
    (∀ u, Leaf.ui u ∈ (NewNotepad outT logT o l name).FATAL.leaves → u.level = "error".toList) :=
  ⟨fun u hu => absurd hu (levelWriter_leaves _ _ _ _ _ u),
   fun u hu => absurd hu (levelWriter_leaves _ _ _ _ _ u),
   fun u hu => absurd hu (levelWriter_leaves _ _ _ _ _ u)⟩

theorem Reachable_LabelInv (T : RuneTables) {st : State} (h : Reachable T st) : LabelInv st := by
  induction h with
  | init => intro e he; simp [State.init] at he
  | @newLogger st area _ ih =>
    cases hg : mapGet st.loggers area with
    | some l => rw [NewLogger_present T st area l hg]; exact ih
    | none =>
      rw [NewLogger_absent T st area hg]
      intro e he
      change e ∈ st.loggers ++ [(area, freshLogger T st area)] at he
      simp only [List.mem_append, List.mem_singleton] at he
      rcases he with he | he
      · exact ih e he
      · subst he
        exact LabelInv_fresh _ _ _ _ _
  | @logLevel st st' d m _ hret ih =>
    obtain ⟨_, _, _, _, _, hl, _, _, _⟩ := LogLevel_returned T hret
    intro e he
    rw [hl] at he
    obtain ⟨e0, _, rfl⟩ := List.mem_map.mp he
    exact ⟨fun u hu => absurd hu (levelWriter_leaves _ _ _ _ _ u),
      fun u hu => absurd hu (levelWriter_leaves _ _ _ _ _ u),
      fun u hu => absurd hu (levelWriter_leaves _ _ _ _ _ u)⟩
  | @captureLogs st c _ ih =>
    intro e he
    simp only [CaptureLogs, List.mem_map] at he
    obtain ⟨e0, he0, rfl⟩ := he
    obtain ⟨hw, her, hf⟩ := ih e0 he0
    simp only [captureLogger_leaves, List.mem_append, List.mem_singleton, Leaf.ui.injEq]
    refine ⟨?_, ?_, ?_⟩
    · rintro u (hu | hu)
      · exact hw u hu
      · rw [hu]
    · rintro u (hu | hu)
      · exact her u hu
      · rw [hu]
    · rintro u (hu | hu)
      · exact hf u hu
      · rw [hu]

/-- C10: `uiWriter.Write` publishes its own label unchanged as `Key`;
`CaptureLogs` wraps the WARN sink of each registered logger with the label
`warn` and its ERROR sink and its FATAL sink with the label `error`; in every
reachable state every event published by a write to the WARN sink of a
registered logger has `Key` `warn`, and every event published by a write to
its ERROR or FATAL sink has `Key` `error`, never `fatal`; and a line that the
original FATAL sink accepts produces, after wrapping, the events of the
original sink followed by one event with `Key` `error`. -/
theorem CaptureLogs_keys (T : RuneTables) (st : State) (c : Option Nat) :
    (∀ (w : uiWriter) (p : GoString), (w.Write T p).1.map Param.Key = [w.level]) ∧
    (∀ e ∈ (CaptureLogs st c).loggers, ∃ e0 ∈ st.loggers, e.1 = e0.1 ∧
      e.2.Notepad.WARN
        = MultiWriter [e0.2.Notepad.WARN, .single (.ui { level := "warn".toList })] ∧
      e.2.Notepad.ERROR
        = MultiWriter [e0.2.Notepad.ERROR, .single (.ui { level := "error".toList })] ∧
      e.2.Notepad.FATAL
        = MultiWriter [e0.2.Notepad.FATAL, .single (.ui { level := "error".toList })]) ∧
    (Reachable T st → ∀ e ∈ st.loggers, ∀ (out : GoString → WriteResult) (p : GoString)
      (ev : Param),
      (ev ∈ (e.2.Notepad.WARN.Write T out p).1 → ev.Key = "warn".toList) ∧
      (ev ∈ (e.2.Notepad.ERROR.Write T out p).1 → ev.Key = "error".toList) ∧
      (ev ∈ (e.2.Notepad.FATAL.Write T out p).1 →
        ev.Key = "error".toList ∧ ev.Key ≠ "fatal".toList)) ∧
    (∀ (orig : Writer) (out : GoString → WriteResult) (p : GoString),
      (orig.Write T out p).2 = (len p, none) →
      ((captureLogger "error".toList orig).Write T out p).1
        = (orig.Write T out p).1 ++ (uiWriter.Write T ⟨"error".toList⟩ p).1 ∧
      ((uiWriter.Write T ⟨"error".toList⟩ p).1.map Param.Key) = ["error".toList]) := by
  refine ⟨fun w p => rfl, ?_, ?_, ?_⟩
  · intro e he
    simp only [CaptureLogs, List.mem_map] at he
    obtain ⟨e0, he0, rfl⟩ := he
    exact ⟨e0, he0, rfl, rfl, rfl, rfl⟩
  · intro hr e he out p ev
    obtain ⟨hw, her, hf⟩ := Reachable_LabelInv T hr e he
    refine ⟨?_, ?_, ?_⟩
    · intro hev
      obtain ⟨u, hu, hk⟩ := Writer_Write_events T out _ p ev hev
      rw [hk, hw u hu]
    · intro hev
      obtain ⟨u, hu, hk⟩ := Writer_Write_events T out _ p ev hev
      rw [hk, her u hu]
    · intro hev
      obtain ⟨u, hu, hk⟩ := Writer_Write_events T out _ p ev hev
      rw [hk, hf u hu]
      exact ⟨rfl, by decide⟩
  · intro orig out p hok
    refine ⟨?_, rfl⟩
    rw [captureLogger_Write]
    have h1 : (orig.Write T out p).2.2 = none := by rw [hok]
    have h2 : (orig.Write T out p).2.1 = len p := by rw [hok]
    unfold fanOutResult
    rw [if_neg (by simp [h1]), if_neg (by simp [h2])]
    split_ifs <;> rfl

theorem CaptureLogs_keys_witness :
    Reachable excerptTables (CaptureLogs fooState (some 0)) ∧
      ((CaptureLogs fooState (some 0)).loggers.map fun e =>
        (e.2.Notepad.FATAL.Write excerptTables stdoutAccepts
          (renderLine "foo   ".toList "FATAL".toList "2020/01/01 00:00:00".toList
            "boom".toList)).1) = [[⟨"error".toList, "boom".toList⟩]] ∧
      ∀ e ∈ (CaptureLogs fooState (some 0)).loggers, ∀ ev ∈
        (e.2.Notepad.FATAL.Write excerptTables stdoutAccepts "boom".toList).1,
        ev.Key = "error".toList ∧ ev.Key ≠ "fatal".toList :=
  ⟨Reachable.captureLogs _ (Reachable.newLogger _ Reachable.init), by decide,
    fun e he ev hev =>
      (((CaptureLogs_keys excerptTables (CaptureLogs fooState (some 0)) none).2.2.1
        (Reachable.captureLogs _ (Reachable.newLogger _ Reachable.init))) e he
          stdoutAccepts "boom".toList ev).2.2 hev⟩

/-! ## Theorems: global thresholds and the failing default -/

/-- C14: after every `LogLevel(defaultLevel, areaLevels)` call that returns,
the global console threshold `OutThreshold` and the global file threshold
`LogThreshold` are equal to each other and to
`LogLevelToThreshold(defaultLevel)`. -/
theorem LogLevel_global_thresholds (T : RuneTables) (st st' : State) (defaultLevel : GoString)
    (areaLevels : List (GoString × GoString))
    (hret : LogLevel T st defaultLevel areaLevels = .returned st') :
    st'.OutThreshold = st'.LogThreshold ∧
      LogLevelToThreshold T defaultLevel = .ok st'.OutThreshold ∧
      LogLevelToThreshold T defaultLevel = .ok st'.LogThreshold := by
  obtain ⟨t, hd, _, hout, hlog, _⟩ := LogLevel_returned T hret
  rw [hout, hlog]
  exact ⟨rfl, hd, hd⟩

theorem LogLevel_global_thresholds_witness :
    LogLevel excerptTables State.init "debug".toList [("foo".toList, "WARN".toList)]
      = .returned (LogLevel excerptTables State.init "debug".toList
          [("foo".toList, "WARN".toList)]).state ∧
    (LogLevel excerptTables State.init "debug".toList
      [("foo".toList, "WARN".toList)]).state.OutThreshold = .LevelDebug ∧
    (LogLevel excerptTables State.init "debug".toList
      [("foo".toList, "WARN".toList)]).state.LogThreshold = .LevelDebug := by
  have h := LogLevel_global_thresholds excerptTables State.init
    (LogLevel excerptTables State.init "debug".toList [("foo".toList, "WARN".toList)]).state
    "debug".toList [("foo".toList, "WARN".toList)] (by decide)
  have h2 : LogLevelToThreshold excerptTables "debug".toList = .ok .LevelDebug := by decide
  rw [h2] at h
  exact ⟨by decide, (Except.ok.inj h.2.1).symm, (Except.ok.inj h.2.2).symm⟩

/-- C19: if `defaultLevel` is not a valid level token (its upper-casing is none
of the six names; for a string of ASCII characters: it is none of the names in
any mix of upper- and lower-case letters), `LogLevel` panics with the message
`invalid log level ` followed by the token, and it does so before changing
anything: the state it leaves behind is the state before the call, so
`OutThreshold`, `LogThreshold`, the override table and every registered
logger are the same as before. -/
theorem LogLevel_invalid_default (T : RuneTables) (st : State) (defaultLevel : GoString)
    (areaLevels : List (GoString × GoString)) (hbad : ¬ UpperIsLevel T defaultLevel) :
    LogLevel T st defaultLevel areaLevels
        = .panicked ("invalid log level ".toList ++ defaultLevel) st ∧
      (LogLevel T st defaultLevel areaLevels).isPanic = true ∧
      (LogLevel T st defaultLevel areaLevels).state.OutThreshold = st.OutThreshold ∧
      (LogLevel T st defaultLevel areaLevels).state.LogThreshold = st.LogThreshold ∧
      (LogLevel T st defaultLevel areaLevels).state.levels = st.levels ∧
      (LogLevel T st defaultLevel areaLevels).state.loggers = st.loggers ∧
      (defaultLevel.all isASCII = true →
        (UpperIsLevel T defaultLevel ↔ IsLevelSpelling defaultLevel)) := by
  have h : LogLevel T st defaultLevel areaLevels
      = .panicked ("invalid log level ".toList ++ defaultLevel) st := by
    simp only [LogLevel, LogLevelToThreshold_error T defaultLevel hbad]
  rw [h]
  exact ⟨rfl, rfl, rfl, rfl, rfl, rfl, upperIsLevel_iff_spelling T defaultLevel⟩

theorem LogLevel_invalid_default_witness :
    ¬ UpperIsLevel excerptTables "WARNING".toList ∧
      LogLevel excerptTables fooState "WARNING".toList [("foo".toList, "DEBUG".toList)]
        = .panicked "invalid log level WARNING".toList fooState :=
  have hbad : ¬ UpperIsLevel excerptTables "WARNING".toList := by
    rw [upperIsLevel_iff_spelling excerptTables _ (by decide)]
    unfold IsLevelSpelling CaseVariant
    decide
  ⟨hbad, (LogLevel_invalid_default excerptTables fooState "WARNING".toList
    [("foo".toList, "DEBUG".toList)] hbad).1⟩

/-! ## Theorems: the display name -/

theorem len_append (a b : GoString) : len (a ++ b) = len a + len b := by
  simp [len]

theorem len_replicate_space (n : Nat) : len (List.replicate n ' ') = n := by
  induction n with
  | zero => rfl
  | succ k ih =>
    have h1 : len [' '] = 1 := rfl
    rw [List.replicate_succ, ← List.singleton_append, len_append, ih, h1]
    omega

/-- C12: for every area string and every value of `LogAreaPadding`, the
display name that the padding loop of `NewLogger` builds is the area followed
only by space characters, its length `len` is
`max(len(area), LogAreaPadding)`, and the area is its initial segment, so it
is never shorter than or a truncation of the area; it is the display name of
the logger `NewLogger` constructs for a new area. With the padding 6, `foo`
becomes `foo   ` and `charger-1` stays as it is. The loop is a total
function: it ends after `LogAreaPadding - len(area)` rounds, or at once when
that is not positive. -/
theorem padLoop_display_name (T : RuneTables) (st : State) (LogAreaPadding : Int)
    (area : GoString) :
    padLoop LogAreaPadding area
        = area ++ List.replicate (LogAreaPadding - len area).toNat ' ' ∧
      (len (padLoop LogAreaPadding area) : Int) = max (len area : Int) LogAreaPadding ∧
      (padLoop LogAreaPadding area).take area.length = area ∧
      area.length ≤ (padLoop LogAreaPadding area).length ∧
      (mapGet st.loggers area = none →
        (NewLogger T st area).2.Notepad.name = padLoop st.LogAreaPadding area ∧
        (NewLogger T st area).2.name = area) ∧
      padLoop 6 "foo".toList = "foo   ".toList ∧
      padLoop 6 "charger-1".toList = "charger-1".toList := by
  have h := padLoop_eq LogAreaPadding _ area rfl
  refine ⟨h, ?_, ?_, ?_, ?_, ?_, ?_⟩
  · rw [h, len_append, len_replicate_space]
    omega
  · rw [h]
    simp
  · rw [h]
    simp
  · intro hnew
    rw [NewLogger_absent T st area hnew]
    exact ⟨rfl, rfl⟩
  · rw [padLoop_eq 6 3 _ (by decide)]
    decide
  · rw [padLoop_eq 6 0 _ (by decide)]
    decide

/-! ## Theorems: what `CaptureLogs` wraps -/

theorem Writer_Write_no_events (T : RuneTables) (out : GoString → WriteResult) (w : Writer)
    (p : GoString) (h : ∀ u, Leaf.ui u ∉ w.leaves) : (w.Write T out p).1 = [] := by
  apply List.eq_nil_iff_forall_not_mem.mpr
  intro ev hev
  obtain ⟨u, hu, _⟩ := Writer_Write_events T out w p ev hev
  exact h u hu

theorem NewLogger_other (T : RuneTables) (st : State) (area k : GoString) (hk : k ≠ area) :
    mapGet (NewLogger T st area).1.loggers k = mapGet st.loggers k := by
  cases hg : mapGet st.loggers area with
  | some l => rw [NewLogger_present T st area l hg]
  | none =>
    simp only [NewLogger, hg]
    exact mapGet_mapSet_other _ _ _ hk _

/-- C11: `CaptureLogs` wraps exactly the loggers that are in the registry when
it is called: the registry afterwards holds the same areas and the same logger
instances, each with its WARN sink wrapped with a `warn` transformer and its
ERROR and FATAL sinks with an `error` transformer; and the `Logger` that
`NewLogger` creates for a new area after `CaptureLogs` has no transformer in
any of its three sinks, so a write to any of them publishes no event, while
the loggers registered before keep their entries. -/
theorem CaptureLogs_wraps_registered (T : RuneTables) (st : State) (c : Option Nat)
    (area : GoString) (hnew : mapGet (CaptureLogs st c).loggers area = none) :
    ((CaptureLogs st c).loggers.map fun e => (e.1, e.2.addr, e.2.name))
        = (st.loggers.map fun e => (e.1, e.2.addr, e.2.name)) ∧
      ((CaptureLogs st c).loggers.map fun e =>
          (e.2.Notepad.WARN.leaves, e.2.Notepad.ERROR.leaves, e.2.Notepad.FATAL.leaves))
        = (st.loggers.map fun e =>
          (e.2.Notepad.WARN.leaves ++ [Leaf.ui { level := "warn".toList }],
           e.2.Notepad.ERROR.leaves ++ [Leaf.ui { level := "error".toList }],
           e.2.Notepad.FATAL.leaves ++ [Leaf.ui { level := "error".toList }])) ∧
      mapGet (NewLogger T (CaptureLogs st c) area).1.loggers area
        = some (NewLogger T (CaptureLogs st c) area).2 ∧
      (∀ k, k ≠ area → mapGet (NewLogger T (CaptureLogs st c) area).1.loggers k
        = mapGet (CaptureLogs st c).loggers k) ∧
      (∀ u, Leaf.ui u ∉ (NewLogger T (CaptureLogs st c) area).2.Notepad.WARN.leaves ∧
        Leaf.ui u ∉ (NewLogger T (CaptureLogs st c) area).2.Notepad.ERROR.leaves ∧
        Leaf.ui u ∉ (NewLogger T (CaptureLogs st c) area).2.Notepad.FATAL.leaves) ∧
      (∀ (out : GoString → WriteResult) (p : GoString),
        ((NewLogger T (CaptureLogs st c) area).2.Notepad.WARN.Write T out p).1 = [] ∧
        ((NewLogger T (CaptureLogs st c) area).2.Notepad.ERROR.Write T out p).1 = [] ∧
        ((NewLogger T (CaptureLogs st c) area).2.Notepad.FATAL.Write T out p).1 = []) := by
  have hfresh : ∀ u, Leaf.ui u ∉ (NewLogger T (CaptureLogs st c) area).2.Notepad.WARN.leaves ∧
      Leaf.ui u ∉ (NewLogger T (CaptureLogs st c) area).2.Notepad.ERROR.leaves ∧
      Leaf.ui u ∉ (NewLogger T (CaptureLogs st c) area).2.Notepad.FATAL.leaves := by
    intro u
    rw [NewLogger_absent T _ area hnew]
    exact ⟨levelWriter_leaves _ _ _ _ _ u, levelWriter_leaves _ _ _ _ _ u,
      levelWriter_leaves _ _ _ _ _ u⟩
  refine ⟨?_, ?_, NewLogger_get T _ area, fun k hk => NewLogger_other T _ area k hk,
    hfresh, ?_⟩
  · simp [CaptureLogs, List.map_map, Function.comp_def]
  · simp [CaptureLogs, List.map_map, Function.comp_def, captureLogger_leaves]
  · intro out p
    exact ⟨Writer_Write_no_events T out _ p (fun u => (hfresh u).1),
      Writer_Write_no_events T out _ p (fun u => (hfresh u).2.1),
      Writer_Write_no_events T out _ p (fun u => (hfresh u).2.2)⟩

theorem CaptureLogs_wraps_registered_witness :
    mapGet fooCaptured.loggers "bar".toList = none ∧
      (fooCaptured.loggers.map fun e => e.2.Notepad.ERROR.leaves)
        = [[.sink .Stdout, .sink .Discard, .ui { level := "error".toList }]] ∧
      ((NewLogger excerptTables fooCaptured "bar".toList).2.Notepad.ERROR.Write excerptTables
        stdoutAccepts "boom".toList).1 = [] :=
  ⟨by decide, by decide,
    ((CaptureLogs_wraps_registered excerptTables fooState (some 0) "bar".toList
      (by decide)).2.2.2.2.2 stdoutAccepts "boom".toList).2.1⟩

/-! ## Theorems: visiting the registry -/

theorem Loggers_recordVisit :
    ∀ (l acc : List (GoString × Logger)), Loggers recordVisit l acc = (l, acc ++ l)
  | [], acc => by simp [Loggers]
  | (name, logger) :: rest, acc => by
    simp only [Loggers, recordVisit, Loggers_recordVisit rest]
    simp

theorem NewLogger_keeps (T : RuneTables) (st : State) (area k : GoString) (l : Logger)
    (h : mapGet st.loggers k = some l) : mapGet (NewLogger T st area).1.loggers k = some l := by
  by_cases hk : k = area
  · subst hk
    rw [NewLogger_present T st k l h]
    exact h
  · rw [NewLogger_other T st area k hk]
    exact h

theorem newLoggers_keeps (T : RuneTables) (k : GoString) (l : Logger) :
    ∀ (areas : List GoString) (st : State), mapGet st.loggers k = some l →
      mapGet (newLoggers T st areas).1.loggers k = some l
  | [], _, h => h
  | area :: rest, st, h => by
    simp only [newLoggers]
    exact newLoggers_keeps T k l rest _ (NewLogger_keeps T st area k l h)

theorem newLoggers_get (T : RuneTables) :
    ∀ (areas : List GoString) (st : State), ∀ x ∈ List.zip areas (newLoggers T st areas).2,
      mapGet (newLoggers T st areas).1.loggers x.1 = some x.2
  | [], _, x, hx => by simp [newLoggers] at hx
  | area :: rest, st, x, hx => by
    simp only [newLoggers, List.zip_cons_cons, List.mem_cons] at hx ⊢
    rcases hx with hx | hx
    · subst hx
      exact newLoggers_keeps T _ _ rest _ (NewLogger_get T st area)
    · exact newLoggers_get T rest _ x hx

theorem newLoggers_keys (T : RuneTables) :
    ∀ (areas : List GoString) (st : State) (k : GoString),
      k ∈ (newLoggers T st areas).1.loggers.map Prod.fst ↔
        (k ∈ st.loggers.map Prod.fst ∨ k ∈ areas)
  | [], st, k => by simp only [newLoggers, List.not_mem_nil, or_false]
  | area :: rest, st, k => by
    simp only [newLoggers]
    rw [newLoggers_keys T rest _ k]
    have hstep : k ∈ (NewLogger T st area).1.loggers.map Prod.fst ↔
        (k ∈ st.loggers.map Prod.fst ∨ k = area) := by
      by_cases hk : k = area
      · subst hk
        constructor
        · intro _
          exact Or.inr rfl
        · intro _
          by_contra hn
          have := (mapGet_eq_none_iff k _).mpr hn
          rw [NewLogger_get] at this
          cases this
      · have h1 := mapGet_eq_none_iff k (NewLogger T st area).1.loggers
        have h2 := mapGet_eq_none_iff k st.loggers
        rw [NewLogger_other T st area k hk] at h1
        constructor
        · intro h
          left
          by_contra hn
          exact (h1.mp (h2.mpr hn)) h
        · rintro (h | h)
          · by_contra hn
            exact (h2.mp (h1.mpr hn)) h
          · exact absurd h hk
    rw [hstep, List.mem_cons]
    tauto

theorem Reachable_newLoggers (T : RuneTables) :
    ∀ (areas : List GoString) (st : State), Reachable T st →
      Reachable T (newLoggers T st areas).1
  | [], _, h => h
  | area :: rest, _, h => Reachable_newLoggers T rest _ (Reachable.newLogger area h)

/-- C13: for every sequence of `NewLogger` calls from the initial state, the
calls `Loggers` makes to its callback are exactly the entries of the registry;
the set of area names it passes equals the set of all area strings passed to
`NewLogger`, every name is passed exactly once, and each is paired with the
`Logger` instance that `NewLogger` returned for that area. No logger is ever
removed: an entry of the registry is still there, unchanged, after a further
`NewLogger` call. -/
theorem Loggers_visits_all (T : RuneTables) (areas : List GoString) (st : State)
    (area : GoString) :
    visitedAfter T areas = (newLoggers T State.init areas).1.loggers ∧
      (Loggers recordVisit (newLoggers T State.init areas).1.loggers []).1
        = (newLoggers T State.init areas).1.loggers ∧
      (∀ a, a ∈ (visitedAfter T areas).map Prod.fst ↔ a ∈ areas) ∧
      ((visitedAfter T areas).map Prod.fst).Nodup ∧
      (∀ x ∈ List.zip areas (newLoggers T State.init areas).2, x ∈ visitedAfter T areas) ∧
      (∀ x ∈ visitedAfter T areas, ∀ y ∈ visitedAfter T areas, x.1 = y.1 → x = y) ∧
      (∀ k l, mapGet st.loggers k = some l →
        mapGet (NewLogger T st area).1.loggers k = some l) := by
  have hv : visitedAfter T areas = (newLoggers T State.init areas).1.loggers := by
    simp [visitedAfter, Loggers_recordVisit]
  have hnodup : ((newLoggers T State.init areas).1.loggers.map Prod.fst).Nodup :=
    (Reachable_RegistryInv T (Reachable_newLoggers T areas _ Reachable.init)).1
  refine ⟨hv, by simp [Loggers_recordVisit], ?_, ?_, ?_, ?_,
    fun k l h => NewLogger_keeps T st area k l h⟩
  · intro a
    rw [hv, newLoggers_keys T areas State.init a]
    simp [State.init]
  · rw [hv]
    exact hnodup
  · intro x hx
    rw [hv]
    exact mapGet_some_mem _ _ _ (newLoggers_get T areas State.init x hx)
  · rw [hv]
    intro x hx y hy hxy
    have hinj := List.inj_on_of_nodup_map hnodup hx hy hxy
    exact hinj

theorem Loggers_visits_all_witness :
    (visitedAfter excerptTables ["foo".toList, "bar".toList, "foo".toList]).map
        (fun e => (e.1, e.2.addr))
      = [("foo".toList, 0), ("bar".toList, 1)] ∧
    ((newLoggers excerptTables State.init ["foo".toList, "bar".toList, "foo".toList]).2.map
        fun l => l.addr) = [0, 1, 0] ∧
    ((visitedAfter excerptTables ["foo".toList, "bar".toList, "foo".toList]).map
        Prod.fst).Nodup :=
  ⟨by decide, by decide,
    (Loggers_visits_all excerptTables ["foo".toList, "bar".toList, "foo".toList] State.init
      []).2.2.2.1⟩

/-! ## Theorems: the override table -/

theorem ToLower_idempotent (T : RuneTables) (hT : LowerIdempotent T) (s : GoString) :
    ToLower T (ToLower T s) = ToLower T s := by
  rw [ToLower_eq_map, ToLower_eq_map, List.map_map]
  apply List.map_congr_left
  intro c _
  exact hT c

theorem excerptTables_lowerIdempotent : LowerIdempotent excerptTables := by
  intro r
  have hsmall : ∀ c : Char, c.toNat ≤ 127 → ¬ (65 ≤ c.toNat ∧ c.toNat ≤ 90) →
      unicodeToLower excerptTables c = c := by
    intro c h1 h2
    unfold unicodeToLower
    rw [if_pos h1, if_neg h2]
  by_cases h : r.toNat ≤ 127
  · by_cases hu : 65 ≤ r.toNat ∧ r.toNat ≤ 90
    · have e : unicodeToLower excerptTables r = Char.ofNat (r.toNat + 32) := by
        unfold unicodeToLower
        rw [if_pos h, if_pos hu]
      have hn : (Char.ofNat (r.toNat + 32)).toNat = r.toNat + 32 :=
        toNat_ofNat_small _ (by omega)
      rw [e]
      exact hsmall _ (by rw [hn]; omega) (by rw [hn]; omega)
    · rw [hsmall r h hu]
      exact hsmall r h hu
  · have e : unicodeToLower excerptTables r = excerptTables.lower r := by
      unfold unicodeToLower
      rw [if_neg h]
    rw [e]
    simp only [excerptTables]
    by_cases h1 : r.toNat = 0x130
    · rw [if_pos h1]
      exact hsmall _ (by decide) (by decide)
    · rw [if_neg h1]
      by_cases h2 : r.toNat = 0x212A
      · rw [if_pos h2]
        exact hsmall _ (by decide) (by decide)
      · rw [if_neg h2]
        unfold unicodeToLower
        rw [if_neg h]
        simp only [excerptTables]
        rw [if_neg h1, if_neg h2]

theorem mem_mapSet {V : Type} (k : GoString) (v : V) (e : GoString × V) :
    ∀ m : List (GoString × V), e ∈ mapSet m k v → e ∈ m ∨ e = (k, v)
  | [], h => by
    simp only [mapSet, List.mem_singleton] at h
    exact Or.inr h
  | (k', v') :: rest, h => by
    by_cases hk : k' = k
    · simp only [mapSet, if_pos hk, List.mem_cons] at h
      rcases h with h | h
      · exact Or.inr h
      · exact Or.inl (List.mem_cons_of_mem _ h)
    · simp only [mapSet, if_neg hk, List.mem_cons] at h
      rcases h with h | h
      · exact Or.inl (by rw [h]; exact List.Mem.head _)
      · rcases mem_mapSet k v e rest h with h2 | h2
        · exact Or.inl (List.mem_cons_of_mem _ h2)
        · exact Or.inr h2

theorem areaLevelLoop_keys (T : RuneTables) (hT : LowerIdempotent T) :
    ∀ (areaLevels : List (GoString × GoString)) (levels : List (GoString × Threshold)),
      (∀ e ∈ levels, ToLower T e.1 = e.1) →
      ∀ e ∈ (areaLevelLoop T levels areaLevels).1, ToLower T e.1 = e.1
  | [], levels, h => h
  | (area, level) :: rest, levels, h => by
    simp only [areaLevelLoop]
    cases hl : LogLevelToThreshold T level with
    | error msg => exact h
    | ok t =>
      apply areaLevelLoop_keys T hT rest
      intro e he
      rcases mem_mapSet _ _ e levels he with h1 | h1
      · exact h e h1
      · rw [h1]
        exact ToLower_idempotent T hT area

theorem LogLevel_state_levels (T : RuneTables) (st : State) (defaultLevel : GoString)
    (areaLevels : List (GoString × GoString)) :
    (LogLevel T st defaultLevel areaLevels).state.levels = st.levels ∨
      (LogLevel T st defaultLevel areaLevels).state.levels
        = (areaLevelLoop T st.levels areaLevels).1 := by
  unfold LogLevel
  cases hd : LogLevelToThreshold T defaultLevel with
  | error msg => exact Or.inl rfl
  | ok t =>
    right
    simp only
    cases hloop : areaLevelLoop T st.levels areaLevels with
    | mk levels msg =>
      cases msg <;> rfl

theorem ReachableAny_keys (T : RuneTables) (hT : LowerIdempotent T) {st : State}
    (h : ReachableAny T st) : ∀ e ∈ st.levels, ToLower T e.1 = e.1 := by
  induction h with
  | init => intro e he; simp [State.init] at he
  | @newLogger st area _ ih =>
    cases hg : mapGet st.loggers area with
    | some l => rw [NewLogger_present T st area l hg]; exact ih
    | none => rw [NewLogger_absent T st area hg]; exact ih
  | @logLevel st d m _ ih =>
    rcases LogLevel_state_levels T st d m with h1 | h1
    · rw [h1]
      exact ih
    · rw [h1]
      exact areaLevelLoop_keys T hT m st.levels ih
  | captureLogs c _ ih => exact ih

theorem overrideOne_eq (T : RuneTables) (a : GoString) :
    overrideOne T a =
      { State.init with
        OutThreshold := .LevelError, LogThreshold := .LevelError,
        levels := [(ToLower T a, .LevelDebug)] } := by
  rfl

theorem overrideOne_separates (T : RuneTables) (a b : GoString)
    (hab : ToLower T a ≠ ToLower T b) :
    LogLevelForArea T (overrideOne T a) a = .LevelDebug ∧
      LogLevelForArea T (overrideOne T a) b = .LevelError := by
  rw [overrideOne_eq]
  constructor
  · simp only [LogLevelForArea, mapGet, if_true]
  · simp only [LogLevelForArea, mapGet]
    rw [if_neg hab]

/-- C15, as the code has it: in every state reachable from the initial state,
with its empty override table, through `LogLevel` calls (returning or
panicking, and with `NewLogger` and `CaptureLogs` calls in between), every key
of the override table is its own lower-casing, given that the case table
lower-cases in one step; and in every state `LogLevelForArea` returns the same
threshold for two area strings that differ only in the case of ASCII letters,
and more generally for two with the same lower-casing `strings.ToLower`. That
is as far as it goes: two area strings with different lower-casings resolve
differently in a reachable state. -/
theorem levels_keys_lower (T : RuneTables) (st : State) (hT : LowerIdempotent T)
    (hr : ReachableAny T st) :
    (∀ e ∈ st.levels, ToLower T e.1 = e.1) ∧
      (∀ a b : GoString, IsCasingOf a b → LogLevelForArea T st a = LogLevelForArea T st b) ∧
      (∀ a b : GoString, ToLower T a = ToLower T b →
        LogLevelForArea T st a = LogLevelForArea T st b) ∧
      (∀ a b : GoString, ToLower T a ≠ ToLower T b →
        ∃ st2, ReachableAny T st2 ∧ LogLevelForArea T st2 a ≠ LogLevelForArea T st2 b) := by
  have h2 : ∀ a b : GoString, ToLower T a = ToLower T b →
      LogLevelForArea T st a = LogLevelForArea T st b := by
    intro a b hab
    unfold LogLevelForArea
    rw [hab]
  refine ⟨ReachableAny_keys T hT hr, fun a b hab => h2 a b (ToLower_casing T hab), h2, ?_⟩
  intro a b hab
  refine ⟨overrideOne T a, ReachableAny.logLevel _ _ ReachableAny.init, ?_⟩
  obtain ⟨h3, h4⟩ := overrideOne_separates T a b hab
  rw [h3, h4]
  decide

theorem levels_keys_lower_witness :
    LowerIdempotent excerptTables ∧ ReachableAny excerptTables fooOverride ∧
      fooOverride.levels = [("foo".toList, .LevelDebug)] ∧
      (∀ e ∈ fooOverride.levels, ToLower excerptTables e.1 = e.1) ∧
      LogLevelForArea excerptTables fooOverride "FOO".toList
        = LogLevelForArea excerptTables fooOverride "fOo".toList :=
  ⟨excerptTables_lowerIdempotent, ReachableAny.logLevel _ _ ReachableAny.init, by decide,
    (levels_keys_lower excerptTables fooOverride excerptTables_lowerIdempotent
      (ReachableAny.logLevel _ _ ReachableAny.init)).1,
    (levels_keys_lower excerptTables fooOverride excerptTables_lowerIdempotent
      (ReachableAny.logLevel _ _ ReachableAny.init)).2.1 _ _
      (by unfold IsCasingOf SameLetter isUpperLetter; decide)⟩

/-- C15 as stated fails: the areas `S` and U+017F (long s) differ only in
letter case, `S` being the upper-case form of the long s, but their
lower-casings `s` and U+017F differ; after `LogLevel("ERROR", {"S": "DEBUG"})`
in the initial state `LogLevelForArea` returns `LevelDebug` for the one and
`LevelError` for the other. -/
theorem LogLevelForArea_long_s :
    ReachableAny excerptTables sOverride ∧
      DifferOnlyInCase excerptTables longS "S".toList ∧
      unicodeToUpper excerptTables (Char.ofNat 0x17F) = 'S' ∧
      ToLower excerptTables longS = longS ∧
      ToLower excerptTables "S".toList = "s".toList ∧
      LogLevelForArea excerptTables sOverride "S".toList = .LevelDebug ∧
      LogLevelForArea excerptTables sOverride longS = .LevelError :=
  ⟨ReachableAny.logLevel _ _ ReachableAny.init, by unfold DifferOnlyInCase; decide,
    by decide, by decide, by decide, by decide, by decide⟩

theorem areaLevelLoop_keeps (T : RuneTables) (k : GoString) :
    ∀ (areaLevels : List (GoString × GoString)) (levels : List (GoString × Threshold)),
      mapGet levels k ≠ none → mapGet (areaLevelLoop T levels areaLevels).1 k ≠ none
  | [], _, h => h
  | (area, level) :: rest, levels, h => by
    simp only [areaLevelLoop]
    cases hl : LogLevelToThreshold T level with
    | error msg => exact h
    | ok t =>
      apply areaLevelLoop_keeps T k rest
      by_cases hk : k = ToLower T area
      · rw [hk, mapGet_mapSet_same]
        exact Option.some_ne_none t
      · rw [mapGet_mapSet_other _ _ _ hk]
        exact h

/-- C18: overrides are never removed. For every state and every
`LogLevel(d, m)` that returns, every key of the override table is still a key
afterwards; every key that is not the lower-casing of a key of `m` keeps its
previous threshold, and so does every key whose lower-cased form is not the
lower-casing of a key of `m` (given that the case table lower-cases in one
step); so an area overridden by an earlier call, when no key of `m` has its
lower-casing, still resolves to that override and not to the new default. -/
theorem LogLevel_keeps_overrides (T : RuneTables) (st st' : State) (d : GoString)
    (m : List (GoString × GoString)) (hret : LogLevel T st d m = .returned st') :
    (∀ k, mapGet st.levels k ≠ none → mapGet st'.levels k ≠ none) ∧
      (∀ k, (∀ q ∈ m, ToLower T q.1 ≠ k) → mapGet st'.levels k = mapGet st.levels k) ∧
      (LowerIdempotent T → ∀ k, (∀ q ∈ m, ToLower T q.1 ≠ ToLower T k) →
        mapGet st'.levels k = mapGet st.levels k) ∧
      (∀ area t, (∀ q ∈ m, ToLower T q.1 ≠ ToLower T area) →
        mapGet st.levels (ToLower T area) = some t → LogLevelForArea T st' area = t) := by
  obtain ⟨_, _, hloop, _⟩ := LogLevel_returned T hret
  have hframe : ∀ k, (∀ q ∈ m, ToLower T q.1 ≠ k) →
      mapGet st'.levels k = mapGet st.levels k :=
    fun k hk => areaLevelLoop_frame T k m st.levels st'.levels hloop hk
  refine ⟨?_, hframe, ?_, ?_⟩
  · intro k hk
    have := areaLevelLoop_keeps T k m st.levels hk
    rw [hloop] at this
    exact this
  · intro hT k hk
    apply hframe
    intro q hq heq
    apply hk q hq
    rw [← heq, ToLower_idempotent T hT]
  · intro area t hk hget
    unfold LogLevelForArea
    rw [hframe _ hk, hget]

theorem LogLevel_keeps_overrides_witness :
    LogLevel excerptTables fooDebug "INFO".toList [("bar".toList, "WARN".toList)]
      = .returned (LogLevel excerptTables fooDebug "INFO".toList
          [("bar".toList, "WARN".toList)]).state ∧
    (LogLevel excerptTables fooDebug "INFO".toList
      [("bar".toList, "WARN".toList)]).state.OutThreshold = .LevelInfo ∧
    LogLevelForArea excerptTables
      (LogLevel excerptTables fooDebug "INFO".toList [("bar".toList, "WARN".toList)]).state
      "FOO".toList = .LevelDebug :=
  ⟨by decide, by decide,
    (LogLevel_keeps_overrides excerptTables fooDebug
      (LogLevel excerptTables fooDebug "INFO".toList [("bar".toList, "WARN".toList)]).state
      "INFO".toList [("bar".toList, "WARN".toList)] (by decide)).2.2.2 "FOO".toList .LevelDebug
      (by decide) (by decide)⟩

/-! ## Theorems: what `LogLevel` leaves alone -/

theorem mapGet_map {V : Type} (f : GoString → V → V) (k : GoString) :
    ∀ m : List (GoString × V),
      mapGet (m.map fun e => (e.1, f e.1 e.2)) k = (mapGet m k).map (f k)
  | [] => rfl
  | (k', v) :: rest => by
    by_cases hk : k' = k
    · subst hk
      simp only [List.map_cons, mapGet, if_true, Option.map_some']
    · simp only [List.map_cons, mapGet, if_neg hk, mapGet_map f k rest]

theorem LogLevel_panicked_loggers (T : RuneTables) {st st' : State} {d msg : GoString}
    {m : List (GoString × GoString)} (h : LogLevel T st d m = .panicked msg st') :
    st'.loggers = st.loggers := by
  unfold LogLevel at h
  cases hd : LogLevelToThreshold T d with
  | error e =>
    simp only [hd, Outcome.panicked.injEq] at h
    rw [← h.2]
  | ok t =>
    simp only [hd] at h
    cases hloop : areaLevelLoop T st.levels m with
    | mk levels e =>
      cases e with
      | some e =>
        simp only [hloop, Outcome.panicked.injEq] at h
        rw [← h.2]
      | none => simp [hloop] at h

theorem LogLevel_state_loggers (T : RuneTables) (st : State) (d : GoString)
    (m : List (GoString × GoString)) :
    ∃ f : GoString → Logger → Logger,
      (∀ k l, (f k l).addr = l.addr ∧ (f k l).name = l.name ∧
        (f k l).Notepad.logThreshold = l.Notepad.logThreshold ∧
        (f k l).Notepad.name = l.Notepad.name) ∧
      (LogLevel T st d m).state.loggers = st.loggers.map fun e => (e.1, f e.1 e.2) := by
  cases h : LogLevel T st d m with
  | returned st' =>
    obtain ⟨_, _, _, _, _, hl, _⟩ := LogLevel_returned T h
    exact ⟨fun k l =>
        { l with Notepad := l.Notepad.SetStdoutThreshold (LogLevelForArea T st' k) },
      fun _ _ => ⟨rfl, rfl, rfl, rfl⟩, hl⟩
  | panicked msg st' =>
    refine ⟨fun _ l => l, fun _ _ => ⟨rfl, rfl, rfl, rfl⟩, ?_⟩
    simp only [Outcome.state, LogLevel_panicked_loggers T h]
    simp

theorem Steps_keeps_logger (T : RuneTables) (area : GoString) (a : Nat) (n : GoString)
    (t : Threshold) {st0 st : State} (h : Steps T st0 st)
    (h0 : ∃ l, mapGet st0.loggers area = some l ∧ l.addr = a ∧ l.name = n ∧
      l.Notepad.logThreshold = t) :
    ∃ l, mapGet st.loggers area = some l ∧ l.addr = a ∧ l.name = n ∧
      l.Notepad.logThreshold = t := by
  induction h with
  | refl => exact h0
  | newLogger area2 _ ih =>
    obtain ⟨l, hl, hrest⟩ := ih
    exact ⟨l, NewLogger_keeps T _ area2 area l hl, hrest⟩
  | logLevel d m _ ih =>
    obtain ⟨l, hl, ha, hn, ht⟩ := ih
    obtain ⟨f, hf, hst⟩ := LogLevel_state_loggers T _ d m
    rw [hst, mapGet_map, hl]
    obtain ⟨f1, f2, f3, _⟩ := hf area l
    exact ⟨f area l, rfl, by rw [f1, ha], by rw [f2, hn], by rw [f3, ht]⟩
  | @captureLogs st1 c _ ih =>
    obtain ⟨l, hl, ha, hn, ht⟩ := ih
    refine ⟨wrapLogger l, ?_, ha, hn, ht⟩
    have hmap := mapGet_map (fun _ l => wrapLogger l) area st1.loggers
    rw [hl] at hmap
    exact hmap

/-- C20, as the code has it: for every state and every `LogLevel` call,
returning or panicking, the registry afterwards holds the same entries in the
same order, and each entry has the area, the instance, the name, the file
threshold and the display name it had before. The file threshold `NewLogger`
gives a new logger is `LogLevelForArea(area)` at that time, and after any
sequence of later `NewLogger`, `LogLevel` and `CaptureLogs` calls the registry
still holds that instance under that area, with that name and that file
threshold. The console threshold is not all that changes: a `LogLevel` call
that returns replaces the WARN, ERROR and FATAL sinks of every registered
logger by the writers jww builds from the new console threshold and the
logger's file threshold and handles, so no sink holds a transformer
afterwards; a call that panics leaves every logger as it was. -/
theorem LogLevel_keeps_file_threshold (T : RuneTables) (st : State) (d : GoString)
    (m : List (GoString × GoString)) (area : GoString) :
    (LogLevel T st d m).state.loggers.map entryFrame = st.loggers.map entryFrame ∧
      (mapGet st.loggers area = none →
        (NewLogger T st area).2.Notepad.logThreshold = LogLevelForArea T st area ∧
        ∀ st2, Steps T (NewLogger T st area).1 st2 →
          ∃ l, mapGet st2.loggers area = some l ∧
            l.addr = (NewLogger T st area).2.addr ∧ l.name = area ∧
            l.Notepad.logThreshold = LogLevelForArea T st area) ∧
      (∀ st2, LogLevel T st d m = .returned st2 →
        st2.loggers.map entrySinks
          = (st.loggers.map fun e => rebuiltSinks (LogLevelForArea T st2 e.1) e.2.Notepad) ∧
        ∀ e ∈ st2.loggers, ∀ u,
          Leaf.ui u ∉ e.2.Notepad.WARN.leaves ∧ Leaf.ui u ∉ e.2.Notepad.ERROR.leaves ∧
          Leaf.ui u ∉ e.2.Notepad.FATAL.leaves) ∧
      (∀ msg st2, LogLevel T st d m = .panicked msg st2 → st2.loggers = st.loggers) := by
  refine ⟨?_, ?_, ?_, fun msg st2 h => LogLevel_panicked_loggers T h⟩
  · obtain ⟨f, hf, hst⟩ := LogLevel_state_loggers T st d m
    rw [hst, List.map_map]
    apply List.map_congr_left
    intro e _
    obtain ⟨f1, f2, f3, f4⟩ := hf e.1 e.2
    simp only [Function.comp, entryFrame, f1, f2, f3, f4]
  · intro hnew
    have hfresh : (NewLogger T st area).2 = freshLogger T st area := by
      rw [NewLogger_absent T st area hnew]
    refine ⟨by rw [hfresh]; rfl, ?_⟩
    intro st2 hsteps
    exact Steps_keeps_logger T area _ _ _ hsteps
      ⟨(NewLogger T st area).2, NewLogger_get T st area, rfl, by rw [hfresh]; rfl,
        by rw [hfresh]; rfl⟩
  · intro st2 hret
    obtain ⟨_, _, _, _, _, hl, _⟩ := LogLevel_returned T hret
    refine ⟨?_, ?_⟩
    · rw [hl, List.map_map]
      apply List.map_congr_left
      intro e _
      rfl
    · intro e he u
      rw [hl] at he
      obtain ⟨e0, _, rfl⟩ := List.mem_map.mp he
      exact ⟨levelWriter_leaves _ _ _ _ _ u, levelWriter_leaves _ _ _ _ _ u,
        levelWriter_leaves _ _ _ _ _ u⟩

theorem LogLevel_keeps_file_threshold_witness :
    mapGet State.init.loggers "foo".toList = none ∧
      State.init.LogThreshold = .LevelWarn ∧
      (fooState.loggers.map fun e =>
        (e.2.Notepad.stdoutThreshold, e.2.Notepad.logThreshold))
        = [(.LevelError, .LevelError)] ∧
      ((LogLevel excerptTables fooState "DEBUG".toList []).state.loggers.map fun e =>
        (e.2.Notepad.stdoutThreshold, e.2.Notepad.logThreshold))
        = [(.LevelDebug, .LevelError)] ∧
      ∃ l, mapGet (LogLevel excerptTables fooState "DEBUG".toList []).state.loggers
          "foo".toList = some l ∧
        l.addr = (NewLogger excerptTables State.init "foo".toList).2.addr ∧
        l.name = "foo".toList ∧
        l.Notepad.logThreshold = LogLevelForArea excerptTables State.init "foo".toList :=
  ⟨rfl, rfl, rfl, rfl,
    ((LogLevel_keeps_file_threshold excerptTables State.init "DEBUG".toList []
      "foo".toList).2.1 rfl).2 _ (Steps.logLevel "DEBUG".toList [] (Steps.refl _))⟩

/-- C20 as stated fails: after `NewLogger("foo")` and `CaptureLogs`, the call
`LogLevel("ERROR", {})` returns and leaves both thresholds of the logger as
they were, but the ERROR sink of the logger loses its transformer: a rendered
line written to it published one event before the call and publishes none
after it. -/
theorem LogLevel_drops_capture :
    LogLevel excerptTables fooCaptured "ERROR".toList [] = .returned fooRecaptured ∧
      (fooCaptured.loggers.map fun e =>
        (e.2.Notepad.stdoutThreshold, e.2.Notepad.logThreshold, e.2.Notepad.ERROR.leaves,
          (e.2.Notepad.ERROR.Write excerptTables stdoutAccepts boomLine).1))
        = [(.LevelError, .LevelError,
            [.sink .Stdout, .sink .Discard, .ui { level := "error".toList }],
            [⟨"error".toList, "boom".toList⟩])] ∧
      (fooRecaptured.loggers.map fun e =>
        (e.2.Notepad.stdoutThreshold, e.2.Notepad.logThreshold, e.2.Notepad.ERROR.leaves,
          (e.2.Notepad.ERROR.Write excerptTables stdoutAccepts boomLine).1))
        = [(.LevelError, .LevelError, [.sink .Stdout, .sink .Discard], [])] :=
  ⟨rfl, by decide, by decide⟩

/-! ## Theorems: installing the capture twice -/

theorem fanOutResult_of_err (T : RuneTables) (level p : GoString)
    (r : List Param × WriteResult) (h : r.2.2 ≠ none) : fanOutResult T level p r = r := by
  unfold fanOutResult
  rw [if_pos h]

theorem captureLogger_Write_err (T : RuneTables) (out : GoString → WriteResult)
    (level : GoString) (orig : Writer) (p : GoString) (hp : p ≠ []) :
    ((captureLogger level orig).Write T out p).2.2 ≠ none := by
  have hlen : len p ≠ 0 := fun h => hp ((len_eq_zero_iff p).mp h)
  rw [captureLogger_Write]
  unfold fanOutResult
  split_ifs with h1 h2
  · exact h1
  · simp
  · simp

theorem captureLogger_iterate_Write (T : RuneTables) (out : GoString → WriteResult)
    (level : GoString) (orig : Writer) (p : GoString) (hp : p ≠ []) :
    ∀ k : Nat, (Nat.iterate (captureLogger level) (k + 1) orig).Write T out p
      = (captureLogger level orig).Write T out p
  | 0 => rfl
  | k + 1 => by
    rw [Function.iterate_succ_apply', captureLogger_Write,
      captureLogger_iterate_Write T out level orig p hp k]
    exact fanOutResult_of_err T level p _ (captureLogger_Write_err T out level orig p hp)

/-- C16, as the code has it: `CaptureLogs` is not idempotent. Calling it twice
wraps the already-wrapped WARN, ERROR and FATAL sinks of every registered
logger a second time, so that each sink holds two transformers and the state
differs from the state after one call. A write of a non-empty line to a sink
wrapped any number of times returns and publishes exactly what it does after
one wrapping: when the original sink accepts the line, one event; the
transformer added by the second call is not reached, because the first
transformer reports zero bytes and the fan-out write ends there. Only a write
of zero bytes reaches both transformers and publishes two events. -/
theorem CaptureLogs_twice (T : RuneTables) (st : State) (c c2 : Option Nat)
    (level : GoString) (orig : Writer) (out : GoString → WriteResult) (p : GoString)
    (k : Nat) :
    ((CaptureLogs (CaptureLogs st c) c2).loggers.map fun e =>
          (e.2.Notepad.WARN.leaves, e.2.Notepad.ERROR.leaves, e.2.Notepad.FATAL.leaves))
        = (st.loggers.map fun e =>
          (e.2.Notepad.WARN.leaves ++
              [Leaf.ui { level := "warn".toList }, Leaf.ui { level := "warn".toList }],
           e.2.Notepad.ERROR.leaves ++
              [Leaf.ui { level := "error".toList }, Leaf.ui { level := "error".toList }],
           e.2.Notepad.FATAL.leaves ++
              [Leaf.ui { level := "error".toList }, Leaf.ui { level := "error".toList }])) ∧
      (st.loggers ≠ [] → CaptureLogs (CaptureLogs st c) c ≠ CaptureLogs st c) ∧
      (p ≠ [] → (Nat.iterate (captureLogger level) (k + 1) orig).Write T out p
        = (captureLogger level orig).Write T out p) ∧
      (p ≠ [] → (orig.Write T out p).2 = (len p, none) →
        ((captureLogger level (captureLogger level orig)).Write T out p).1
          = (orig.Write T out p).1 ++ (uiWriter.Write T ⟨level⟩ p).1) ∧
      ((orig.Write T out []).2 = (0, none) →
        ((captureLogger level (captureLogger level orig)).Write T out []).1
          = (orig.Write T out []).1 ++
            ((uiWriter.Write T ⟨level⟩ []).1 ++ (uiWriter.Write T ⟨level⟩ []).1)) := by
  refine ⟨?_, ?_, fun hp => captureLogger_iterate_Write T out level orig p hp k, ?_, ?_⟩
  · simp [CaptureLogs, List.map_map, Function.comp_def, captureLogger_leaves]
  · intro hne heq
    cases hl : st.loggers with
    | nil => exact hne hl
    | cons e rest =>
      have h := congrArg
        (fun s : State => (s.loggers.map fun e => e.2.Notepad.WARN.leaves.length).head?) heq
      simp only [CaptureLogs, hl, List.map_cons, List.head?_cons, Option.some.injEq,
        captureLogger_leaves, List.length_append, List.length_singleton] at h
      omega
  · intro hp hok
    have h1 : (orig.Write T out p).2.2 = none := by rw [hok]
    have h2 : (orig.Write T out p).2.1 = len p := by rw [hok]
    have hlen : len p ≠ 0 := fun h => hp ((len_eq_zero_iff p).mp h)
    rw [captureLogger_Write,
      fanOutResult_of_err T level p _ (captureLogger_Write_err T out level orig p hp),
      captureLogger_Write]
    unfold fanOutResult
    rw [if_neg (by simp [h1]), if_neg (by simp [h2]), if_neg hlen]
  · intro hok
    have h1 : (orig.Write T out []).2.2 = none := by rw [hok]
    have h2 : (orig.Write T out []).2.1 = len [] := by rw [hok]; rfl
    have hlen : len ([] : GoString) = 0 := rfl
    rw [captureLogger_Write, captureLogger_Write]
    simp only [fanOutResult, h1, h2, hlen, ne_eq, not_true_eq_false, if_false, if_true,
      List.append_assoc]

theorem CaptureLogs_twice_witness :
    boomLine ≠ [] ∧
      (Nat.iterate (captureLogger "error".toList) 3
          (MultiWriter [.single (.sink .Stdout), .single (.sink .Discard)])).Write
        excerptTables stdoutAccepts boomLine
        = ([⟨"error".toList, "boom".toList⟩], (0, some ErrShortWrite)) :=
  ⟨by decide,
    ((CaptureLogs_twice excerptTables State.init none none "error".toList
      (MultiWriter [.single (.sink .Stdout), .single (.sink .Discard)]) stdoutAccepts
      boomLine 2).2.2.1 (by decide)).trans (by decide)⟩

/-- C16 as stated fails: after `NewLogger("foo")` and two `CaptureLogs` calls
the ERROR sink of the logger holds two transformers, but the write of one
rendered line to it publishes one event, not two. -/
theorem CaptureLogs_twice_one_event :
    ((CaptureLogs fooCaptured (some 0)).loggers.map fun e =>
        (e.2.Notepad.ERROR.leaves,
          (e.2.Notepad.ERROR.Write excerptTables stdoutAccepts boomLine).1))
      = [([.sink .Stdout, .sink .Discard, .ui { level := "error".toList },
            .ui { level := "error".toList }],
          [⟨"error".toList, "boom".toList⟩])] := by
  decide

/-! ## Theorems: `LogLevel` and the mutex -/

/-- The two parts of `NewLogger`, run one after the other with nothing in
between, are `NewLogger`. -/
theorem NewLogger_enter_leave (T : RuneTables) (st : State) (area : GoString) :
    (match NewLoggerEnter T { st := st, loggersMux := false } area with
      | some (sh1, .inr pd) => some (NewLoggerLeave sh1 pd)
      | some (sh1, .inl logger) => some (sh1, logger)
      | none => none)
      = some ({ st := (NewLogger T st area).1, loggersMux := false }, (NewLogger T st area).2) := by
  unfold NewLoggerEnter NewLogger
  cases mapGet st.loggers area <;> rfl

/-- C17 fails on the code: `LogLevel` does not take `loggersMux`. From the
initial state, a goroutine enters `NewLogger("b")`, takes the mutex and
resolves the level `LevelError`; while it holds the mutex a second goroutine
runs `LogLevel("DEBUG", {})` from start to end; the first goroutine then
registers its logger with the console threshold `LevelError`, although
`LogLevelForArea("b")` is `LevelDebug` by now. With `LogLevel` taking the
lock, as the specification words it, the second goroutine would have to
wait. -/
theorem LogLevel_runs_while_mutex_held :
    (NewLoggerEnter excerptTables { st := State.init, loggersMux := false } "b".toList).map
        (fun r => r.1.loggersMux) = some true ∧
      (interleaved excerptTables { st := State.init, loggersMux := false } "b".toList
          "DEBUG".toList []).map
        (fun r => (r.2.name, r.2.Notepad.stdoutThreshold,
          LogLevelForArea excerptTables r.1.st "b".toList,
          (mapGet r.1.st.loggers "b".toList).map fun l => l.Notepad.stdoutThreshold))
        = some ("b".toList, .LevelError, .LevelDebug, some .LevelError) ∧
      interleavedLockedSpec excerptTables { st := State.init, loggersMux := false } "b".toList
          "DEBUG".toList [] = none := by
  decide

end Util
